import Mathlib

/-!
Verification development for the zflag command-line flag parsing library.

Modelling conventions, chosen once for the whole file:

* Go strings are modelled as lists of characters (`GoStr`).  The argument
  vectors and flag names handled by the parser are ASCII, where Go's byte
  indexing (`s[0]`, `s[1:]`) and character indexing agree.
* Go maps keyed by flag name (`formal`, `actual`) are modelled through the
  single flag store `FlagSet.flags` (Go mutates one `*Flag` object shared by
  all views; here the object is identified by its unique name) together with
  lists of keys.  The `shorthands` map stores the flag's name and is resolved
  through the store, which is equivalent because flags are never removed.
* The name-normalization function is fixed to the library default — the
  identity, as returned by `GetNormalizeFunc` when none was installed.
* Writes to the output sink (usage text, deprecation warnings) and the
  interop with Go's own flag package (`addedGoFlagSets`) are not modelled;
  they do not affect parsing results.
-/

/-- Go strings, modelled as lists of characters. -/
abbrev GoStr := List Char

/-- Characters of a Lean string literal, for writing `GoStr` constants. -/
def str (s : String) : GoStr := s.data

/-- Translation of Go `strconv.ParseBool` (called by `isBool` and by the
boolean value adapter): accepts exactly the twelve literal forms, reports an
error (`none`) otherwise, in which case Go returns the zero value `false`
alongside the error. -/
def goParseBool (v : GoStr) : Option Bool :=
  if v = str "1" ∨ v = str "t" ∨ v = str "T" ∨ v = str "TRUE" ∨
     v = str "true" ∨ v = str "True" then some true
  else if v = str "0" ∨ v = str "f" ∨ v = str "F" ∨ v = str "FALSE" ∨
     v = str "false" ∨ v = str "False" then some false
  else none

/-- Translation of `isBool` (flag.go line 1170): a token is boolean-shaped
exactly when `strconv.ParseBool` accepts it. -/
def isBool (v : GoStr) : Bool := (goParseBool v).isSome

/-- Go `lower` from strconv: ASCII case folding by setting bit five
(`c | ('x' - 'X')`). -/
def goLower (c : Char) : Char := Char.ofNat (c.toNat ||| 32)

/-- The white-space class of Go `unicode.IsSpace` (the Unicode White_Space
property), the predicate `strings.TrimSpace` trims by. -/
def goIsSpace (c : Char) : Bool :=
  decide (c = ' ' ∨ c = '\t' ∨ c = '\n' ∨ (11 ≤ c.toNat ∧ c.toNat ≤ 13) ∨
    c.toNat = 0x85 ∨ c.toNat = 0xA0 ∨ c.toNat = 0x1680 ∨
    (0x2000 ≤ c.toNat ∧ c.toNat ≤ 0x200A) ∨ c.toNat = 0x2028 ∨ c.toNat = 0x2029 ∨
    c.toNat = 0x202F ∨ c.toNat = 0x205F ∨ c.toNat = 0x3000)

/-- Model of Go `strings.TrimSpace`: strips `unicode.IsSpace` characters
from both ends. -/
def goTrimSpace (s : GoStr) : GoStr :=
  ((s.dropWhile goIsSpace).reverse.dropWhile goIsSpace).reverse

/-- Splits at the first occurrence of `sep`: models Go
`strings.SplitN(s, sep, 2)` (second component `none` when `sep` is absent).
Also used for the decimal point of float literals. -/
def splitFirst (sep : Char) : GoStr → GoStr × Option GoStr
  | [] => ([], none)
  | c :: rest =>
    if c = sep then ([], some rest)
    else
      let p := splitFirst sep rest
      (c :: p.1, p.2)

/-- The value a Go `float64` variable can hold after `strconv.ParseFloat`,
as far as the claims in scope observe it: a finite value (carried as the
exact rational value of the parsed literal — IEEE rounding to the nearest
double is not modelled, and no claim in scope depends on the rounded value
of a successful parse), the two infinities, or NaN. -/
inductive GoFloat where
  | finite (q : ℚ)
  | posInf
  | negInf
  | nan
deriving DecidableEq, Repr

/-- Decimal digit value of a character. -/
def decDigit (c : Char) : Option Nat :=
  if '0' ≤ c ∧ c ≤ '9' then some (c.toNat - 48) else none

/-- Hexadecimal digit value of a character (both cases). -/
def hexDigit (c : Char) : Option Nat :=
  if '0' ≤ c ∧ c ≤ '9' then some (c.toNat - 48)
  else if 'a' ≤ goLower c ∧ goLower c ≤ 'f' then some ((goLower c).toNat - 87)
  else none

/-- Scanning loop of strconv `underscoreOK`: `saw` tracks the class of the
last character (`^` start of the number, `0` digit or base prefix, `_`
underscore, `!` anything else); an underscore must follow a digit or the
base prefix and be followed by a digit. -/
def underscoreLoop (hex : Bool) : Char → GoStr → Bool
  | saw, [] => decide (saw ≠ '_')
  | saw, c :: rest =>
    if (decDigit c).isSome ∨ (hex ∧ (hexDigit c).isSome) then underscoreLoop hex '0' rest
    else if c = '_' then
      if saw = '0' then underscoreLoop hex '_' rest else false
    else if saw = '_' then false
    else underscoreLoop hex '!' rest

/-- Translation of strconv `underscoreOK`: underscore placement as in Go
numeric literals (sign, optional `0x` prefix, then the loop above).  On a
string without underscores it is always true, so it can be required
unconditionally. -/
def underscoreOK (s : GoStr) : Bool :=
  match s with
  | [] => underscoreLoop false '^' []
  | c :: rest =>
    let p := if c = '-' ∨ c = '+' then rest else c :: rest
    match p with
    | c0 :: c1 :: rest2 =>
      if c0 = '0' ∧ goLower c1 = 'x' then underscoreLoop true '0' rest2
      else underscoreLoop false '^' (c0 :: c1 :: rest2)
    | _ => underscoreLoop false '^' p

/-- Mantissa scan of strconv `readFloat`: consumes digits of the base,
underscores and at most one dot; returns the digit value, the number of
digits after the dot, whether any digit was seen, and the unconsumed rest
(a second dot stops the scan and stays unconsumed). -/
def scanMantissa (hex : Bool) : GoStr → Nat → Nat → Bool → Bool → Nat × Nat × Bool × GoStr
  | [], m, f, _, sawdigits => (m, f, sawdigits, [])
  | c :: rest, m, f, sawdot, sawdigits =>
    if c = '_' then scanMantissa hex rest m f sawdot sawdigits
    else if c = '.' then
      if sawdot then (m, f, sawdigits, c :: rest)
      else scanMantissa hex rest m f true sawdigits
    else
      match (if hex then hexDigit c else decDigit c) with
      | some d =>
        scanMantissa hex rest (m * (if hex then 16 else 10) + d)
          (if sawdot then f + 1 else f) sawdot true
      | none => (m, f, sawdigits, c :: rest)

/-- Exponent digit loop of strconv `readFloat`: decimal digits with
underscores (Go clips the accumulator at 10000, which only matters past the
overflow and flush-to-zero bounds where the classification agrees, so the
exact value is kept here). -/
def scanExpDigits : GoStr → Nat → Nat × GoStr
  | [], e => (e, [])
  | c :: rest, e =>
    if c = '_' then scanExpDigits rest e
    else
      match decDigit c with
      | some d => scanExpDigits rest (e * 10 + d)
      | none => (e, c :: rest)

/-- Exponent part after the `e`/`p` marker: optional sign, then at least one
decimal digit. -/
def scanExponent (s : GoStr) : Option (Bool × Nat × GoStr) :=
  match s with
  | [] => none
  | c :: rest =>
    let sb : Bool × GoStr :=
      if c = '+' then (false, rest) else if c = '-' then (true, rest) else (false, c :: rest)
    match sb.2 with
    | [] => none
    | d :: _ => if (decDigit d).isSome then some (sb.1, scanExpDigits sb.2 0) else none

/-- Optional leading sign (`neg`, rest). -/
def stripSign : GoStr → Bool × GoStr
  | '+' :: rest => (false, rest)
  | '-' :: rest => (true, rest)
  | s => (false, s)

/-- Exact rational value of a decimal literal: digit value `m`, `f` digits
after the dot, signed decimal exponent (`m · 10^(±e-f)`, kept as a kernel-
computable normalized fraction). -/
def decFloatVal (m f : Nat) (esign : Bool) (e : Nat) : ℚ :=
  if esign then mkRat m (10 ^ (f + e)) else mkRat (m * 10 ^ e) (10 ^ f)

/-- Exact rational value of a hexadecimal literal: hex digit value `m`, `f`
hex digits after the dot, signed binary exponent (`m · 2^(±e-4f)`). -/
def hexFloatVal (m f : Nat) (esign : Bool) (e : Nat) : ℚ :=
  let e2 : Int := (if esign then -(e : Int) else (e : Int)) - 4 * (f : Int)
  if 0 ≤ e2 then mkRat (m * 2 ^ e2.toNat) 1 else mkRat m (2 ^ (-e2).toNat)

/-- Decimal branch of strconv `readFloat`: mantissa with at least one digit,
then an optional case-insensitive `e` exponent; the whole rest must be
consumed. -/
def readDec (neg : Bool) (s1 : GoStr) : Option (Bool × ℚ) :=
  match scanMantissa false s1 0 0 false false with
  | (m, f, sawdigits, rest2) =>
    if sawdigits = false then none
    else
      match rest2 with
      | [] => some (neg, mkRat m (10 ^ f))
      | e :: rest3 =>
        if goLower e = 'e' then
          match scanExponent rest3 with
          | some (esign, ev, []) => some (neg, decFloatVal m f esign ev)
          | _ => none
        else none

/-- Hexadecimal branch of strconv `readFloat`: hex mantissa with at least
one digit, then a MANDATORY case-insensitive `p` binary exponent. -/
def readHex (neg : Bool) (body : GoStr) : Option (Bool × ℚ) :=
  match scanMantissa true body 0 0 false false with
  | (m, f, sawdigits, rest2) =>
    if sawdigits = false then none
    else
      match rest2 with
      | [] => none
      | p :: rest3 =>
        if goLower p = 'p' then
          match scanExponent rest3 with
          | some (esign, ev, []) => some (neg, hexFloatVal m f esign ev)
          | _ => none
        else none

/-- Translation of strconv `readFloat` plus the full-consumption check of
`ParseFloat`: sign, the `0x` prefix when at least one character follows it,
then the decimal or hexadecimal grammar, with the underscore-placement
check.  Returns the sign and the unsigned exact value. -/
def readFloat (s : GoStr) : Option (Bool × ℚ) :=
  if underscoreOK s then
    match stripSign s with
    | (neg, s1) =>
      match s1 with
      | c0 :: c1 :: c2 :: rest =>
        if c0 = '0' ∧ goLower c1 = 'x' then readHex neg (c2 :: rest)
        else readDec neg (c0 :: c1 :: c2 :: rest)
      | _ => readDec neg s1
  else none

/-- Case-insensitive (ASCII) equality against a lowercase pattern. -/
def strEqFold (s t : GoStr) : Bool := s.map goLower == t

/-- Translation of strconv `special` under `ParseFloat`'s full-consumption
requirement: optional sign, then exactly `inf`, `infinity` or `nan`,
case-insensitive; the sign applies to the infinities and is ignored for
NaN. -/
def parseSpecial (s : GoStr) : Option GoFloat :=
  match s with
  | [] => none
  | _ :: _ =>
    match stripSign s with
    | (neg, body) =>
      if strEqFold body (str "inf") ∨ strEqFold body (str "infinity") then
        some (if neg then .negInf else .posInf)
      else if strEqFold body (str "nan") then some .nan
      else none

/-- The overflow bound of `float64`: one half ULP beyond the largest finite
double, `2^1024 - 2^970`.  A decimal or hexadecimal value whose magnitude
reaches it rounds to infinity, which `strconv.ParseFloat` reports as
`ErrRange` with `±Inf` as the returned value. -/
def f64OverflowBound : ℚ := mkRat (2 ^ 1024 - 2 ^ 970 : Nat) 1

/-- Outcome of `strconv.ParseFloat`: success (the parsed value — exact for
finite literals, see `GoFloat`), a range error (overflow: `±Inf` is returned
alongside `ErrRange`), or a syntax error (`0` is returned alongside
`ErrSyntax`).  Flush-to-zero of tiny values is reported by Go without an
error and is covered by the success case (with the exact value kept). -/
inductive FloatParseResult where
  | ok (v : GoFloat)
  | rangeErr (neg : Bool)
  | synErr
deriving DecidableEq, Repr

/-- Model of Go `strconv.ParseFloat` with `bitSize` 64: the special forms,
then the numeric grammar, then the overflow classification. -/
def goParseFloat (s : GoStr) : FloatParseResult :=
  match parseSpecial s with
  | some v => .ok v
  | none =>
    match readFloat s with
    | none => .synErr
    | some (neg, q) =>
      if Rat.blt q f64OverflowBound then .ok (.finite (if neg then -q else q))
      else .rangeErr neg

/-- The dynamic value stored in a flag (`Flag.Value` in the source).  The
capability interfaces (`BoolFlag`, `OptionalValue`) become constructor
shapes: `boolV` is boolean-shaped, `optionalV` accepts an optional argument,
`stringV` and `float64V` are plain scalar adapters. -/
inductive FlagValue where
  | boolV (b : Bool)
  | stringV (s : GoStr)
  | float64V (x : GoFloat)
  | optionalV (s : GoStr)
deriving DecidableEq, Repr

/-- The `Value.(BoolFlag)` capability check. -/
def FlagValue.isBoolFlag : FlagValue → Bool
  | .boolV _ => true
  | _ => false

/-- The `Value.(OptionalValue)` capability check. -/
def FlagValue.isOptional : FlagValue → Bool
  | .optionalV _ => true
  | _ => false

/-- Modelled from the spec: the boolean value adapter (bool.go is not under
src/).  Presence toggles the flag, so empty value text (synthesized by the
shorthand path) sets `true`; otherwise the conventional boolean literal forms
are parsed, any other text is an error and the zero value `false` is stored
alongside it (the Go scalar-adapter pattern, as in `float64Value.Set`). -/
def boolValueSet (val : GoStr) : Bool × Bool :=
  if val = [] then (true, false)
  else
    match goParseBool val with
    | some b => (b, false)
    | none => (false, true)

/-- Translation of `float64Value.Set` (float64.go lines 23-28): trims space,
parses, stores the conversion result even when parsing failed (`0` on a
syntax error, `±Inf` on a range error), and returns the error. -/
def float64ValueSet (val : GoStr) : GoFloat × Bool :=
  match goParseFloat (goTrimSpace val) with
  | .ok v => (v, false)
  | .rangeErr neg => (if neg then .negInf else .posInf, true)
  | .synErr => (.finite 0, true)

/-- Dispatch of `flag.Value.Set(value)` over the modelled adapters.  Returns
the new stored value and an error indicator.  The string adapter stores the
text verbatim and never fails, the optional adapter likewise (both are
"trivial serialize/parse adapters" per the spec; their Go files are not under
src/). -/
def FlagValue.set : FlagValue → GoStr → FlagValue × Bool
  | .boolV _, val =>
    let r := boolValueSet val
    (.boolV r.1, r.2)
  | .stringV _, val => (.stringV val, false)
  | .float64V _, val =>
    let r := float64ValueSet val
    (.float64V r.1, r.2)
  | .optionalV _, val => (.optionalV val, false)

/-- Parse-time and validation errors of the library.  `failf` only formats
and prints an error, so each `failf` site becomes a constructor carrying the
data interpolated into its message; the structured constructors from
errors.go (`NewUnknownFlagError`, `NewInvalidArgumentError`,
`MissingFlagsError`) are carried through unchanged. -/
inductive ZError where
  | errHelp
  | badFlagForm (s : GoStr)
  | unknownFlag (name : GoStr)
  | flagCannotHaveValue (s : GoStr)
  | needsArgument (s : GoStr)
  | needsArgumentShort (c : Char) (shorthands : GoStr)
  | unknownShorthand (c : Char) (shorthands : GoStr)
  | invalidArgument (flagName : GoStr) (value : GoStr)
  | missingFlags (names : List GoStr)
deriving DecidableEq, Repr

/-- One declared flag (the `Flag` record of the source).  Display-only fields
(usage strings, deprecation messages, `Hidden`, `DefValue`, groups,
annotations) are omitted: they feed the unmodelled output sink only.  A
`shorthand` of `'\x00'` is Go's rune zero value, meaning "no shorthand". -/
structure ZFlag where
  name : GoStr
  shorthand : Char := '\x00'
  shorthandOnly : Bool := false
  addNegative : Bool := false
  value : FlagValue
  changed : Bool := false
  required : Bool := false
deriving DecidableEq, Repr

/-- Go `ErrorHandling`. -/
inductive ErrorHandling where
  | continueOnError
  | exitOnError
  | panicOnError
deriving DecidableEq, Repr

/-- The flag registry (the `FlagSet` record of the source).  `flags` is the
single store of flag objects in registration order (`orderedFormal`; the
`formal` map is lookup by unique name).  `actual` holds the key set of the
Go `actual` map and `orderedActual` the append-order list, both as names.
`shorthands` maps a rune to the name of the flag object it points at. -/
structure FlagSet where
  name : GoStr := []
  flags : List ZFlag := []
  shorthands : List (Char × GoStr) := []
  args : List GoStr := []
  argsLenAtDash : Int := -1
  actual : List GoStr := []
  orderedActual : List GoStr := []
  unknownFlags : List GoStr := []
  interspersed : Bool := true
  sortFlags : Bool := true
  allowUnknownFlags : Bool := false
  allowRequiredFlags : Bool := false
  disableBuiltinHelp : Bool := false
  errorHandling : ErrorHandling := .continueOnError
  parsed : Bool := false
deriving DecidableEq, Repr

/-- Lookup in the `formal` map: the flag object with the given (already
normalized) name. -/
def FlagSet.findFormal (fs : FlagSet) (n : GoStr) : Option ZFlag :=
  fs.flags.find? (fun f => f.name = n)

/-- Key-existence test on the `shorthands` map (Go `_, ok := fs.shorthands[c]`). -/
def FlagSet.shorthandKeyExists (fs : FlagSet) (c : Char) : Bool :=
  (fs.shorthands.find? (fun p => p.1 = c)).isSome

/-- Value lookup on the `shorthands` map (Go `flag := fs.shorthands[c]`),
resolved through the store. -/
def FlagSet.shorthandFlag (fs : FlagSet) (c : Char) : Option ZFlag :=
  match fs.shorthands.find? (fun p => p.1 = c) with
  | some p => fs.findFormal p.2
  | none => none

/-- Translation of `FlagSet.addUnknownFlag`. -/
def FlagSet.addUnknownFlag (fs : FlagSet) (s : GoStr) : FlagSet :=
  { fs with unknownFlags := fs.unknownFlags ++ [s] }

/-- Pointer mutation of the flag object named `n` in the store: every view
(`formal`, `orderedFormal`, `shorthands`, `actual`) aliases the same object,
so updating it in the single store models the Go pointer write. -/
def updateFlagNamed (flags : List ZFlag) (n : GoStr) (upd : ZFlag → ZFlag) : List ZFlag :=
  flags.map (fun g => if g.name = n then upd g else g)

/-- Translation of `FlagSet.Set` (flag.go lines 549-575).  The value adapter
runs before the error check, so its store mutation happens even on failure;
on the first successful set the flag is entered into the `actual` key set
(map assignment: no growth if the key is present) and appended to
`orderedActual`, and its changed marker is raised.  The deprecation warning
print is not modelled. -/
def FlagSet.Set (fs : FlagSet) (name value : GoStr) : FlagSet × Option ZError :=
  match fs.findFormal name with
  | none => (fs, some (.unknownFlag name))
  | some flag =>
    let r := flag.value.set value
    let fs1 := { fs with flags := updateFlagNamed fs.flags name (fun g => { g with value := r.1 }) }
    if r.2 then (fs1, some (.invalidArgument flag.name value))
    else if flag.changed then (fs1, none)
    else
      ({ fs1 with
          actual := if fs1.actual.contains name then fs1.actual else fs1.actual ++ [name]
          orderedActual := fs1.orderedActual ++ [name]
          flags := updateFlagNamed fs1.flags name (fun g => { g with value := r.1, changed := true }) },
       none)

/-- Go byte-lexicographic string order, used by `sortFlags`. -/
def goStrLe : GoStr → GoStr → Bool
  | [], _ => true
  | _ :: _, [] => false
  | a :: as, b :: bs => if a = b then goStrLe as bs else decide (a < b)

/-- Insertion step of the name sort. -/
def insertByName (f : ZFlag) : List ZFlag → List ZFlag
  | [] => [f]
  | g :: gs => if goStrLe f.name g.name then f :: g :: gs else g :: insertByName f gs

/-- Translation of `sortFlags`: the flags in lexicographical name order. -/
def sortFlagsByName (l : List ZFlag) : List ZFlag := l.foldr insertByName []

/-- Translation of `FlagSet.GetAllFlags`: sorted order when `SortFlags` is on
(the `sortedFormal` cache is pure memoization and is not modelled), otherwise
primordial order. -/
def FlagSet.GetAllFlags (fs : FlagSet) : List ZFlag :=
  if fs.sortFlags then sortFlagsByName fs.flags else fs.flags

/-- Translation of `FlagSet.Validate` (flag.go lines 1422-1437): unless the
missing-required allowance is active, visit all flags and aggregate every
required-but-unchanged one into a single `MissingFlagsError`. -/
def FlagSet.Validate (fs : FlagSet) : Option ZError :=
  if !fs.allowRequiredFlags then
    let missing := ((fs.GetAllFlags).filter (fun f => f.required && !f.changed)).map (fun f => f.name)
    if missing.isEmpty then none else some (.missingFlags missing)
  else none

/-- Translation of `NewFlagSet`. -/
def NewFlagSet (name : GoStr) (errorHandling : ErrorHandling) : FlagSet :=
  { name := name, errorHandling := errorHandling, argsLenAtDash := -1,
    interspersed := true, sortFlags := true }

/-- Translation of `FlagSet.AddFlag`: `none` models the panic on a duplicate
name or duplicate shorthand. -/
def FlagSet.AddFlag (fs : FlagSet) (flag : ZFlag) : Option FlagSet :=
  if (fs.findFormal flag.name).isSome then none
  else
    let fs1 := { fs with flags := fs.flags ++ [flag] }
    if flag.shorthand = '\x00' then some fs1
    else if fs1.shorthandKeyExists flag.shorthand then none
    else some { fs1 with shorthands := fs1.shorthands ++ [(flag.shorthand, flag.name)] }

/-- Go expression `len(args) > 0 && len(args[0]) > 0 && args[0][0] != '-'`,
used by both long and short parsing to decide whether the following token can
serve as a flag value. -/
def nextArgIsFlagValue (args : List GoStr) : Bool :=
  match args with
  | (c :: _) :: _ => decide (c ≠ '-')
  | _ => false

/-- Go expression `len(s) > 0 && s[0] == '-'`. -/
def headIsDash (s : GoStr) : Bool :=
  match s with
  | '-' :: _ => true
  | _ => false

/-- Translation of `FlagSet.stripUnknownFlagValue` (flag.go lines 1073-1091):
after a tolerated unknown flag, a following non-flag token is swallowed (and
itself recorded as unknown) when further tokens follow it; a single trailing
non-flag token is dropped (`return nil`). -/
def FlagSet.stripUnknownFlagValue (fs : FlagSet) (args : List GoStr) : FlagSet × List GoStr :=
  match args with
  | [] => (fs, args)
  | first :: rest =>
    if headIsDash first then (fs, first :: rest)
    else if rest ≠ [] then (fs.addUnknownFlag first, rest)
    else (fs, [])

/-- Result of `parseLongArg`: the receiver after its mutations, the remaining
argument tokens, and the error if any. -/
structure LongResult where
  fs : FlagSet
  outArgs : List GoStr
  err : Option ZError

/-- The setter callback (`parseFunc`); it reads and returns the whole
registry state because the `Parse` instantiation closes over the receiver. -/
abbrev ParseFn := FlagSet → ZFlag → GoStr → FlagSet × Option ZError

/-- Name resolution of `parseLongArg` (flag.go lines 1105-1116): plain
lookup of the part before `=`, and when that fails on a `no-`-prefixed name
of byte length above 3, retargeting to the flag named by the remainder if it
is a negation-enabled boolean flag.  Returns the resolved flag (if any) and
the possibly retargeted name. -/
def FlagSet.longLookup (fs : FlagSet) (name1 : GoStr) (hasNo : Bool) : Option ZFlag × GoStr :=
  match fs.findFormal name1 with
  | some f => (some f, name1)
  | none =>
    if name1.length > 3 ∧ hasNo then
      match fs.findFormal (name1.drop 3) with
      | some bf =>
        if bf.addNegative ∧ bf.value.isBoolFlag then (some bf, name1.drop 3)
        else (none, name1)
      | none => (none, name1)
    else (none, name1)

/-- Translation of `FlagSet.parseLongArg` (flag.go lines 1094-1168).  The
source's single unresolved-branch switch is split on whether the lookup
succeeded: when the name resolved to a shorthand-only flag the
tolerated-unknown branch is taken unconditionally (the disjunction on line
1124), and the built-in help branch requires the lookup to have failed.
`failf` only prints, so errors pass through structurally. -/
def FlagSet.parseLongArg (fs : FlagSet) (fn : ParseFn) (s : GoStr) (args : List GoStr) :
    LongResult :=
  match s.drop 2 with
  | [] => ⟨fs, args, some (.badFlagForm s)⟩
  | c :: cs =>
    if c = '-' ∨ c = '=' then ⟨fs, args, some (.badFlagForm s)⟩
    else
      let name0 : GoStr := c :: cs
      let hasNo := (str "no-").isPrefixOf name0
      let sp := splitFirst '=' name0
      -- negation retargeting, lines 1107-1116
      let rt := fs.longLookup sp.1 hasNo
      match rt.1 with
      | none =>
        if rt.2 = str "help" ∧ ¬fs.disableBuiltinHelp then ⟨fs, args, some .errHelp⟩
        else if fs.allowUnknownFlags then
          let fs1 := fs.addUnknownFlag s
          if sp.2.isSome then ⟨fs1, args, none⟩
          else
            let p := fs1.stripUnknownFlagValue args
            ⟨p.1, p.2, none⟩
        else ⟨fs, args, some (.unknownFlag rt.2)⟩
      | some f =>
        if f.shorthandOnly then
          let fs1 := fs.addUnknownFlag s
          if sp.2.isSome then ⟨fs1, args, none⟩
          else
            let p := fs1.stripUnknownFlagValue args
            ⟨p.1, p.2, none⟩
        else
          let flagIsBool := f.value.isBoolFlag
          let flagIsOpt := f.value.isOptional
          match sp.2 with
          | some v =>
            if hasNo ∧ flagIsBool then ⟨fs, args, some (.flagCannotHaveValue s)⟩
            else
              let r := fn fs f v
              ⟨r.1, args, r.2⟩
          | none =>
            if flagIsBool then
              let r := fn fs f (if hasNo then str "false" else str "true")
              ⟨r.1, args, r.2⟩
            else if flagIsOpt then
              let r := fn fs f []
              ⟨r.1, args, r.2⟩
            else if nextArgIsFlagValue args ∧
                (¬flagIsBool ∨ (flagIsBool ∧ isBool (args.headD []))) then
              let r := fn fs f (args.headD [])
              ⟨r.1, args.tail, r.2⟩
            else ⟨fs, args, some (.needsArgument s)⟩

/-- Result of `parseSingleShortArg`: state, remaining cluster, remaining
argument tokens, error. -/
structure ShortResult where
  fs : FlagSet
  outShorts : GoStr
  outArgs : List GoStr
  err : Option ZError

/-- Shared tail of `parseSingleShortArg` (flag.go lines 1211-1252), reached
once the character resolved to a flag, either through the shorthand map or
through the long-name fallback.  The shorthand-deprecation warning print is
not modelled. -/
def FlagSet.parseSingleShortCore (fs : FlagSet) (fn : ParseFn) (flag : ZFlag)
    (char : Char) (rest : GoStr) (args : List GoStr) : ShortResult :=
  let shorthands : GoStr := char :: rest
  let flagIsBool := flag.value.isBoolFlag
  let flagIsOpt := flag.value.isOptional
  let nextShortIsVal : Bool :=
    match rest with
    | [] => false
    | c2 :: _ => !fs.shorthandKeyExists c2
  if decide (rest.length > 1) && (rest.headD ' ' == '=') then
    -- '-f=arg'
    let r := fn fs flag (rest.drop 1)
    ⟨r.1, [], args, r.2⟩
  else if nextShortIsVal && (!flagIsBool || (flagIsBool && isBool rest)) then
    -- '-farg'
    let r := fn fs flag rest
    ⟨r.1, [], args, r.2⟩
  else if nextArgIsFlagValue args && (!flagIsBool || (flagIsBool && isBool (args.headD []))) then
    -- '-f arg'
    let r := fn fs flag (args.headD [])
    ⟨r.1, rest, args.tail, r.2⟩
  else if flagIsBool || flagIsOpt then
    -- '-f' (arg was optional)
    let r := fn fs flag []
    ⟨r.1, rest, args, r.2⟩
  else
    ⟨fs, rest, args, some (.needsArgumentShort char shorthands)⟩

/-- Translation of `FlagSet.parseSingleShortArg` (flag.go lines 1176-1253). -/
def FlagSet.parseSingleShortArg (fs : FlagSet) (fn : ParseFn) (shorthands : GoStr)
    (args : List GoStr) : ShortResult :=
  match shorthands with
  | [] => ⟨fs, [], args, none⟩
  | char :: rest =>
    match fs.shorthandFlag char with
    | some flag => fs.parseSingleShortCore fn flag char rest args
    | none =>
      if char = 'h' ∧ ¬fs.disableBuiltinHelp then ⟨fs, rest, args, some .errHelp⟩
      else if fs.allowUnknownFlags then
        if shorthands.length > 2 then
          ⟨fs.addUnknownFlag ('-' :: shorthands), [], args, none⟩
        else
          let fs1 := fs.addUnknownFlag ['-', char]
          if rest = [] then
            let p := fs1.stripUnknownFlagValue args
            ⟨p.1, rest, p.2, none⟩
          else ⟨fs1, rest, args, none⟩
      else
        -- fallback to a normal flag lookup without any shorthand opts
        match fs.findFormal [char] with
        | none => ⟨fs, rest, args, some (.unknownShorthand char shorthands)⟩
        | some lflag =>
          if lflag.shorthand ≠ '\x00' ∧ lflag.shorthand ≠ char then
            ⟨fs, rest, args, some (.unknownShorthand char shorthands)⟩
          else fs.parseSingleShortCore fn lflag char rest args

/-- Translation of the cluster loop inside `parseShortArg` (flag.go lines
1260-1265).  The source loops while the remaining cluster is nonempty,
passes the ORIGINAL `args` to every iteration (the loop assigns `outArgs`
but keeps feeding `args`), and replaces the cluster with the returned
`outShorts`.  Since the returned `outShorts` is always either the tail of
the cluster or empty (theorem `parseSingleShortArg_outShorts` below), the
loop is written as structural recursion on the tail, continuing exactly when
the returned `outShorts` is nonempty. -/
def FlagSet.shortClusterLoop (fs : FlagSet) (fn : ParseFn) (shorthands : GoStr)
    (args outArgs : List GoStr) : FlagSet × List GoStr × Option ZError :=
  match shorthands with
  | [] => (fs, outArgs, none)
  | char :: rest =>
    let r := fs.parseSingleShortArg fn (char :: rest) args
    match r.err with
    | some e => (r.fs, r.outArgs, some e)
    | none =>
      if r.outShorts = [] then (r.fs, r.outArgs, none)
      else r.fs.shortClusterLoop fn rest args r.outArgs

/-- Translation of `FlagSet.parseShortArg` (flag.go lines 1255-1268). -/
def FlagSet.parseShortArg (fs : FlagSet) (fn : ParseFn) (s : GoStr) (args : List GoStr) :
    FlagSet × List GoStr × Option ZError :=
  fs.shortClusterLoop fn (s.drop 1) args args

/-- Justification for writing the cluster loop structurally: one shorthand
step returns either the tail of the cluster (value taken from the following
token, or none) or the empty cluster (in-cluster value consumption or a
tolerated unknown run). -/
theorem parseSingleShortArg_outShorts (fs : FlagSet) (fn : ParseFn) (char : Char)
    (rest : GoStr) (args : List GoStr) :
    (fs.parseSingleShortArg fn (char :: rest) args).outShorts = rest ∨
    (fs.parseSingleShortArg fn (char :: rest) args).outShorts = [] := by
  unfold FlagSet.parseSingleShortArg FlagSet.parseSingleShortCore
  repeat' split
  all_goals (try simp_all)
  all_goals (repeat' split)
  all_goals simp_all

/-- The token list returned by `stripUnknownFlagValue` is the input or its
tail (a dropped single trailing token is the tail of a singleton). -/
theorem stripUnknownFlagValue_outArgs (fs : FlagSet) (args : List GoStr) :
    (fs.stripUnknownFlagValue args).2 = args ∨ (fs.stripUnknownFlagValue args).2 = args.tail := by
  unfold FlagSet.stripUnknownFlagValue
  repeat' split
  all_goals simp_all

/-- The token list returned by `parseLongArg` is the input or its tail. -/
theorem parseLongArg_outArgs (fs : FlagSet) (fn : ParseFn) (s : GoStr) (args : List GoStr) :
    (fs.parseLongArg fn s args).outArgs = args ∨ (fs.parseLongArg fn s args).outArgs = args.tail := by
  unfold FlagSet.parseLongArg
  split
  · simp
  · rename_i x c cs heq
    split
    · simp
    · rcases h : (fs.longLookup (splitFirst '=' (c :: cs)).1
          (List.isPrefixOf (str "no-") (c :: cs))).1 with _ | f <;> simp only [h]
      · repeat' split
        all_goals (try simp_all)
        all_goals (apply stripUnknownFlagValue_outArgs)
      · repeat' split
        all_goals (try simp_all)
        all_goals (apply stripUnknownFlagValue_outArgs)

/-- The token list returned by `parseSingleShortArg` is the input or its tail. -/
theorem parseSingleShortArg_outArgs (fs : FlagSet) (fn : ParseFn) (shorthands : GoStr)
    (args : List GoStr) :
    (fs.parseSingleShortArg fn shorthands args).outArgs = args ∨
    (fs.parseSingleShortArg fn shorthands args).outArgs = args.tail := by
  unfold FlagSet.parseSingleShortArg FlagSet.parseSingleShortCore
  repeat' split
  all_goals (try simp_all)
  all_goals (repeat' split)
  all_goals (try simp_all)
  all_goals (apply stripUnknownFlagValue_outArgs)

/-- The token list returned by the cluster loop is the initial `outArgs`, the
original `args`, or its tail. -/
theorem shortClusterLoop_outArgs (fs : FlagSet) (fn : ParseFn) (shorthands : GoStr)
    (args outArgs : List GoStr) :
    (fs.shortClusterLoop fn shorthands args outArgs).2.1 = outArgs ∨
    (fs.shortClusterLoop fn shorthands args outArgs).2.1 = args ∨
    (fs.shortClusterLoop fn shorthands args outArgs).2.1 = args.tail := by
  induction shorthands generalizing fs outArgs with
  | nil => left; rfl
  | cons char rest ih =>
    have hsingle := parseSingleShortArg_outArgs fs fn (char :: rest) args
    unfold FlagSet.shortClusterLoop
    rcases herr : (fs.parseSingleShortArg fn (char :: rest) args).err with _ | e
    · simp only [herr]
      by_cases houts : (fs.parseSingleShortArg fn (char :: rest) args).outShorts = []
      · simp only [houts, if_pos rfl]
        tauto
      · simp only [if_neg houts]
        rcases ih (fs.parseSingleShortArg fn (char :: rest) args).fs
            (fs.parseSingleShortArg fn (char :: rest) args).outArgs with h | h | h
        · rw [h]; tauto
        · tauto
        · tauto
    · simp only [herr]
      tauto

/-- The token list returned by `parseShortArg` is the input or its tail. -/
theorem parseShortArg_outArgs (fs : FlagSet) (fn : ParseFn) (s : GoStr) (args : List GoStr) :
    (fs.parseShortArg fn s args).2.1 = args ∨ (fs.parseShortArg fn s args).2.1 = args.tail := by
  unfold FlagSet.parseShortArg
  rcases shortClusterLoop_outArgs fs fn (s.drop 1) args args with h | h | h <;> tauto

/-- Length bound used for the termination of the top-level loop. -/
theorem parseLongArg_outArgs_length (fs : FlagSet) (fn : ParseFn) (s : GoStr)
    (args : List GoStr) :
    (fs.parseLongArg fn s args).outArgs.length ≤ args.length := by
  rcases parseLongArg_outArgs fs fn s args with h | h <;> simp [h]

/-- Length bound used for the termination of the top-level loop. -/
theorem parseShortArg_outArgs_length (fs : FlagSet) (fn : ParseFn) (s : GoStr)
    (args : List GoStr) :
    (fs.parseShortArg fn s args).2.1.length ≤ args.length := by
  rcases parseShortArg_outArgs fs fn s args with h | h <;> simp [h]

/-- Translation of `FlagSet.parseArgs` (flag.go lines 1270-1300), the
top-level token loop.  In the source's order: an empty token, a token not
starting with `-`, and a single-character token are positional — in
non-interspersed mode the scan stops there, all remaining tokens become
positional and validation is skipped (`return nil`).  The exact token `--`
records the current positional count as the terminator index, moves every
remaining token to the positionals and leaves the loop (validation still
runs).  Otherwise the token is dispatched to long or shorthand handling; an
error aborts the pass without validation.  Termination: each handler returns
the remaining tokens or their tail. -/
def FlagSet.parseArgs (fs : FlagSet) (fn : ParseFn) : List GoStr → FlagSet × Option ZError
  | [] => (fs, fs.Validate)
  | s :: args =>
    match s with
    | [] =>
      if ¬fs.interspersed then ({ fs with args := fs.args ++ [] :: args }, none)
      else FlagSet.parseArgs { fs with args := fs.args ++ [[]] } fn args
    | [c] =>
      if ¬fs.interspersed then ({ fs with args := fs.args ++ [c] :: args }, none)
      else FlagSet.parseArgs { fs with args := fs.args ++ [[c]] } fn args
    | c0 :: c1 :: crest =>
      if c0 ≠ '-' then
        if ¬fs.interspersed then ({ fs with args := fs.args ++ (c0 :: c1 :: crest) :: args }, none)
        else FlagSet.parseArgs { fs with args := fs.args ++ [c0 :: c1 :: crest] } fn args
      else if c1 = '-' then
        if crest = [] then
          let fs1 := { fs with argsLenAtDash := (fs.args.length : Int), args := fs.args ++ args }
          (fs1, fs1.Validate)
        else
          let r := fs.parseLongArg fn (c0 :: c1 :: crest) args
          match r.err with
          | some e => (r.fs, some e)
          | none => FlagSet.parseArgs r.fs fn r.outArgs
      else
        let r := fs.parseShortArg fn (c0 :: c1 :: crest) args
        match r.2.2 with
        | some e => (r.1, some e)
        | none => FlagSet.parseArgs r.1 fn r.2.1
termination_by argv => argv.length
decreasing_by
  · simp
  · simp
  · simp
  · have := parseLongArg_outArgs_length fs fn (c0 :: c1 :: crest) rest
    simp only [List.length_cons]
    omega
  · have := parseShortArg_outArgs_length fs fn (c0 :: c1 :: crest) rest
    simp only [List.length_cons]
    omega

/-- Outcome of a whole parse pass under the configured error-handling
policy: `exited` models `os.Exit` and `panicked` models `panic(err)`. -/
inductive ParseOutcome where
  | ok
  | err (e : ZError)
  | exited (code : Nat)
  | panicked (e : ZError)
deriving DecidableEq, Repr

/-- Translation of `FlagSet.parseAll` (flag.go lines 1306-1337).  With an
empty argument vector the `Validate` result is returned directly — bypassing
both the positional reset and the error-handling policy.  Otherwise the
positional sequence is reset and the token loop runs; a resulting error is
subjected to the policy (help exits with status 0 under `ExitOnError`).  The
`addedGoFlagSets` replay concerns only the goflag interop and is not
modelled. -/
def FlagSet.parseAll (fs : FlagSet) (fn : ParseFn) (arguments : List GoStr) :
    FlagSet × ParseOutcome :=
  let fs0 := { fs with parsed := true }
  if arguments = [] then
    match fs0.Validate with
    | some e => (fs0, .err e)
    | none => (fs0, .ok)
  else
    let fs1 := { fs0 with args := [] }
    let r := fs1.parseArgs fn arguments
    match r.2 with
    | none => (r.1, .ok)
    | some e =>
      match r.1.errorHandling with
      | .continueOnError => (r.1, .err e)
      | .exitOnError => (r.1, .exited (if e = .errHelp then 0 else 2))
      | .panicOnError => (r.1, .panicked e)

/-- Translation of `FlagSet.Parse`: `parseAll` with the setter callback that
delegates to `FlagSet.Set` on the current registry state. -/
def FlagSet.Parse (fs : FlagSet) (arguments : List GoStr) : FlagSet × ParseOutcome :=
  fs.parseAll (fun st fl v => st.Set fl.name v) arguments

/-! Helper lemmas about lookups and the registry mutations. -/

/-- Lookup commutes with a name-preserving pointer update: the found object
is the updated one. -/
theorem find?_updateFlagNamed (l : List ZFlag) (n m : GoStr) (upd : ZFlag → ZFlag)
    (h : ∀ g, (upd g).name = g.name) :
    (updateFlagNamed l n upd).find? (fun f => f.name = m) =
      ((l.find? (fun f => f.name = m)).map (fun g => if g.name = n then upd g else g)) := by
  induction l with
  | nil => rfl
  | cons a l ih =>
    have hup : (if a.name = n then upd a else a).name = a.name := by
      split <;> simp [h]
    simp only [updateFlagNamed, List.map_cons, List.find?_cons] at ih ⊢
    by_cases ha : a.name = m
    · rw [show (decide ((if a.name = n then upd a else a).name = m)) = true by
        rw [hup]; simp [ha]]
      rw [show (decide (a.name = m)) = true by simp [ha]]
      simp
    · rw [show (decide ((if a.name = n then upd a else a).name = m)) = false by
        rw [hup]; simp [ha]]
      rw [show (decide (a.name = m)) = false by simp [ha]]
      exact ih

/-- A successful lookup pins the name of the object found. -/
theorem findFormal_name (fs : FlagSet) (n : GoStr) (f : ZFlag)
    (h : fs.findFormal n = some f) : f.name = n := by
  have := List.find?_some h
  simpa using this

/-- find? of another name is untouched by a name-preserving pointer update. -/
theorem find?_updateFlagNamed_other (l : List ZFlag) (n m : GoStr) (upd : ZFlag → ZFlag)
    (h : ∀ g, (upd g).name = g.name) (hnm : m ≠ n) :
    (updateFlagNamed l n upd).find? (fun f => f.name = m) = l.find? (fun f => f.name = m) := by
  rw [find?_updateFlagNamed l n m upd h]
  rcases hf : l.find? (fun f => f.name = m) with _ | g
  · rw [hf]; rfl
  · rw [hf]
    have hg : g.name = m := by simpa using List.find?_some hf
    simp [hg, hnm]

/-- Characterization of `FlagSet.Set` on a present flag: the adapter result
is always stored; on adapter failure an `InvalidArgumentError` is returned
and the changed marker is untouched, otherwise the changed marker is up
afterwards (raised by the first successful set, kept by later ones). -/
theorem Set_found (fs : FlagSet) (nm v : GoStr) (f : ZFlag)
    (hfind : fs.findFormal nm = some f) :
    (fs.Set nm v).2 = (if (f.value.set v).2 then some (.invalidArgument f.name v) else none) ∧
    (fs.Set nm v).1.findFormal nm =
      some (if (f.value.set v).2 then { f with value := (f.value.set v).1 }
            else { f with value := (f.value.set v).1, changed := true }) := by
  have hname := findFormal_name fs nm f hfind
  have hfind' : fs.flags.find? (fun g => g.name = nm) = some f := hfind
  have hu1 := find?_updateFlagNamed fs.flags nm nm
      (fun g => { g with value := (f.value.set v).1 }) (fun g => rfl)
  have hu2 := find?_updateFlagNamed
      (updateFlagNamed fs.flags nm (fun g => { g with value := (f.value.set v).1 })) nm nm
      (fun g => { g with value := (f.value.set v).1, changed := true }) (fun g => rfl)
  unfold FlagSet.Set
  rw [hfind]
  by_cases hbad : (f.value.set v).2 = true
  · constructor
    · simp [hbad]
    · simp only [hbad, ite_true, if_true, FlagSet.findFormal]
      rw [hu1, hfind']
      simp [hname]
  · have hbad' : (f.value.set v).2 = false := by simpa using hbad
    by_cases hch : f.changed = true
    · constructor
      · simp [hbad', hch]
      · simp only [hbad', Bool.false_eq_true, ite_false, if_false, hch, ite_true,
          FlagSet.findFormal]
        rw [hu1, hfind']
        simp [hname, hch]
    · have hch' : f.changed = false := by simpa using hch
      constructor
      · simp [hbad', hch']
      · simp only [hbad', Bool.false_eq_true, ite_false, if_false, hch', FlagSet.findFormal]
        rw [hu2, hu1, hfind']
        simp [hname]

/-! Claim C8: the boolean-literal detector. -/

/-- C8: the boolean-literal detector classifies a token as boolean-shaped
exactly when it is one of the twelve conventional boolean textual forms
`1`, `0`, `t`, `f`, `true`, `false`, `T`, `F`, `True`, `False`, `TRUE`,
`FALSE`; every other string, including the mixed-case `tRue`, is not
boolean-shaped. -/
theorem c8_boolean_literals :
    (∀ v : GoStr, isBool v = true ↔
      (v = str "1" ∨ v = str "0" ∨ v = str "t" ∨ v = str "f" ∨
       v = str "true" ∨ v = str "false" ∨ v = str "T" ∨ v = str "F" ∨
       v = str "True" ∨ v = str "False" ∨ v = str "TRUE" ∨ v = str "FALSE")) ∧
    isBool (str "tRue") = false := by
  constructor
  · intro v
    unfold isBool goParseBool
    split
    · rename_i h
      simp only [Option.isSome_some, true_iff]
      tauto
    · split
      · rename_i h1 h2
        simp only [Option.isSome_some, true_iff]
        tauto
      · rename_i h1 h2
        simp only [Option.isSome_none, Bool.false_eq_true, false_iff]
        push_neg at h1 h2 ⊢
        tauto
  · decide

/-! Claim C9: a failed float64 set is not atomic. -/

/-- Membership through the insertion step of the name sort. -/
theorem mem_insertByName (f g : ZFlag) (l : List ZFlag) :
    g ∈ insertByName f l ↔ g = f ∨ g ∈ l := by
  induction l with
  | nil => simp [insertByName]
  | cons a l ih =>
    simp only [insertByName]
    split
    · simp [or_comm, or_assoc, or_left_comm]
    · simp only [List.mem_cons, ih]
      tauto

/-- The name sort does not change the set of flags. -/
theorem mem_sortFlagsByName (g : ZFlag) (l : List ZFlag) :
    g ∈ sortFlagsByName l ↔ g ∈ l := by
  induction l with
  | nil => simp [sortFlagsByName]
  | cons a l ih =>
    simp only [sortFlagsByName, List.foldr_cons] at ih ⊢
    rw [mem_insertByName, ih, List.mem_cons]

/-- `GetAllFlags` visits exactly the registered flags. -/
theorem mem_GetAllFlags (fs : FlagSet) (g : ZFlag) :
    g ∈ fs.GetAllFlags ↔ g ∈ fs.flags := by
  unfold FlagSet.GetAllFlags
  split
  · exact mem_sortFlagsByName g fs.flags
  · rfl

/-- C6: with the missing-required allowance inactive, `Validate` returns a
single aggregate `MissingFlagsError` naming exactly the registered flags
that are required but unchanged (all of them, not just the first), and
returns no error when there is no such flag. -/
theorem c6_validate_aggregates (fs : FlagSet) (hallow : fs.allowRequiredFlags = false) :
    ((∀ f ∈ fs.flags, f.required = true → f.changed = true) → fs.Validate = none) ∧
    ((∃ f ∈ fs.flags, f.required = true ∧ f.changed = false) →
      ∃ L, fs.Validate = some (.missingFlags L) ∧
        ∀ nm, nm ∈ L ↔ ∃ f ∈ fs.flags, f.name = nm ∧ f.required = true ∧ f.changed = false) := by
  unfold FlagSet.Validate
  simp only [hallow, Bool.not_false, if_true, ite_true]
  constructor
  · intro hnone
    have hfil : (fs.GetAllFlags.filter (fun f => f.required && !f.changed)) = [] := by
      rw [List.filter_eq_nil_iff]
      intro a ha
      have h2 := hnone a ((mem_GetAllFlags fs a).mp ha)
      rcases hr : a.required with _ | _
      · simp [hr]
      · simp [hr, h2 hr]
    simp [hfil]
  · rintro ⟨f, hmem, hreq, hch⟩
    have hfmem : f.name ∈ (fs.GetAllFlags.filter (fun g => g.required && !g.changed)).map
        (fun g => g.name) := by
      simp only [List.mem_map]
      exact ⟨f, List.mem_filter.mpr ⟨(mem_GetAllFlags fs f).mpr hmem, by simp [hreq, hch]⟩, rfl⟩
    have hmemgen : ∀ nm, (nm ∈ (fs.GetAllFlags.filter (fun g => g.required && !g.changed)).map
        (fun g => g.name)) ↔
        ∃ g ∈ fs.flags, g.name = nm ∧ g.required = true ∧ g.changed = false := by
      intro nm
      simp only [List.mem_map, List.mem_filter, mem_GetAllFlags]
      constructor
      · rintro ⟨g, ⟨hg, hgp⟩, hgnm⟩
        simp only [Bool.and_eq_true, Bool.not_eq_true'] at hgp
        exact ⟨g, hg, hgnm, hgp.1, hgp.2⟩
      · rintro ⟨g, hg, hgnm, hgreq, hgch⟩
        exact ⟨g, ⟨hg, by simp [hgreq, hgch]⟩, hgnm⟩
    rcases hL : (fs.GetAllFlags.filter (fun g => g.required && !g.changed)).map (fun g => g.name)
      with _ | ⟨n0, t0⟩
    · rw [hL] at hfmem
      simp at hfmem
    · refine ⟨n0 :: t0, ?_, ?_⟩
      · rw [hL]
        rfl
      · intro nm
        rw [← hL]
        exact hmemgen nm

/-- Fixture for the C6 witness: one required string flag, never set. -/
def c6fs : FlagSet := { flags := [{ name := str "name", value := .stringV [], required := true }] }

/-- Witness for C6: the scenario of the spec — a required `name` flag that
was never set makes `Validate` return a `MissingFlagsError` naming exactly
`name`. -/
theorem c6_witness :
    (c6fs.allowRequiredFlags = false ∧
      (∃ f ∈ c6fs.flags, f.required = true ∧ f.changed = false)) ∧
    (∃ L, c6fs.Validate = some (.missingFlags L) ∧
      ∀ nm, nm ∈ L ↔ ∃ f ∈ c6fs.flags, f.name = nm ∧ f.required = true ∧ f.changed = false) := by
  refine ⟨⟨rfl, ⟨{ name := str "name", value := .stringV [], required := true }, by decide, rfl, rfl⟩⟩, ?_⟩
  exact (c6_validate_aggregates c6fs rfl).2
    ⟨{ name := str "name", value := .stringV [], required := true }, by decide, rfl, rfl⟩

/-! Claim C1: handling of the terminator token. -/

/-- Token shape the top-level loop treats as positional: empty, a single
character, or no leading dash (the disjunction at flag.go line 1274). -/
def positionalShaped (t : GoStr) : Bool :=
  match t with
  | [] => true
  | [_] => true
  | c :: _ :: _ => decide (c ≠ '-')

/-- Congruence helper for the scan results of the form `(X, X.Validate)`. -/
theorem pairValidateCong (a b : FlagSet) (h : a = b) : (a, a.Validate) = (b, b.Validate) := by
  rw [h]

/-- Scanning a positional-shaped prefix followed by the terminator (with
interspersed mode on): every prefix token is collected as positional, then
the terminator records their count and moves the remaining tokens to the
positionals, with no flag interpretation of those tokens. -/
theorem parseArgs_positional_prefix_dash (fn : ParseFn) (pre : List GoStr) :
    ∀ (fs : FlagSet) (post : List GoStr), fs.interspersed = true →
    (∀ t ∈ pre, positionalShaped t = true) →
    fs.parseArgs fn (pre ++ str "--" :: post) =
      ({ fs with argsLenAtDash := ((fs.args.length + pre.length : Nat) : Int),
                 args := fs.args ++ pre ++ post },
       FlagSet.Validate { fs with
                 argsLenAtDash := ((fs.args.length + pre.length : Nat) : Int),
                 args := fs.args ++ pre ++ post }) := by
  induction pre with
  | nil =>
    intro fs post hint hpre
    rw [List.nil_append]
    simp only [show str "--" = ['-','-'] from rfl, FlagSet.parseArgs]
    simp only [reduceCtorEq, reduceIte, ite_true, ite_false, if_neg, if_pos, not_true,
      not_false_eq_true]
    apply pairValidateCong
    cases fs
    simp
  | cons t pre ih =>
    intro fs post hint hpre
    have hpt := hpre t (by simp)
    have hpre2 : ∀ u ∈ pre, positionalShaped u = true := fun u hu => hpre u (by simp [hu])
    rcases t with _ | ⟨c0, _ | ⟨c1, crest⟩⟩
    · have step : fs.parseArgs fn (([] : GoStr) :: (pre ++ str "--" :: post)) =
          FlagSet.parseArgs { fs with args := fs.args ++ [[]] } fn (pre ++ str "--" :: post) := by
        simp only [FlagSet.parseArgs, hint]
        simp
      rw [List.cons_append, step, ih { fs with args := fs.args ++ [[]] } post hint hpre2]
      apply pairValidateCong
      cases fs
      simp only [FlagSet.mk.injEq, List.append_assoc, List.singleton_append, List.length_append,
        List.length_cons, List.length_nil, and_true, true_and]
      omega
    · have step : fs.parseArgs fn ([c0] :: (pre ++ str "--" :: post)) =
          FlagSet.parseArgs { fs with args := fs.args ++ [[c0]] } fn (pre ++ str "--" :: post) := by
        simp only [FlagSet.parseArgs, hint]
        simp
      rw [List.cons_append, step, ih { fs with args := fs.args ++ [[c0]] } post hint hpre2]
      apply pairValidateCong
      cases fs
      simp only [FlagSet.mk.injEq, List.append_assoc, List.singleton_append, List.length_append,
        List.length_cons, List.length_nil, and_true, true_and]
      omega
    · have hc0 : ¬ c0 = '-' := by simpa [positionalShaped] using hpt
      have step : fs.parseArgs fn ((c0 :: c1 :: crest) :: (pre ++ str "--" :: post)) =
          FlagSet.parseArgs { fs with args := fs.args ++ [c0 :: c1 :: crest] } fn
            (pre ++ str "--" :: post) := by
        simp only [FlagSet.parseArgs, hint, hc0]
        simp [hc0]
      rw [List.cons_append, step, ih { fs with args := fs.args ++ [c0 :: c1 :: crest] } post hint hpre2]
      apply pairValidateCong
      cases fs
      simp only [FlagSet.mk.injEq, List.append_assoc, List.singleton_append, List.length_append,
        List.length_cons, List.length_nil, and_true, true_and]
      omega

/-- C1 (amended): when the scanner reaches the exact token `--` — here
guaranteed by keeping the interspersed default on and letting every earlier
token be positional-shaped, so that no error aborts the scan first — parsing
records the number of positional arguments collected so far as the
terminator index, appends every token after the `--` as positional (even
tokens beginning with `-`), and performs no further flag interpretation: the
whole resulting registry state differs from the initial one only in the
`parsed` marker, the positionals and the terminator index.  Argument vectors
whose `--` is never reached do not get this treatment
(`c1_counterexample`). -/
theorem c1_dash_terminator (fs : FlagSet) (pre post : List GoStr)
    (hint : fs.interspersed = true) (hpre : ∀ t ∈ pre, positionalShaped t = true) :
    (fs.Parse (pre ++ str "--" :: post)).1 =
      { fs with parsed := true, args := pre ++ post, argsLenAtDash := (pre.length : Int) } := by
  have hne : ¬ (pre ++ str "--" :: post = []) := by cases pre <;> simp
  have hlem := parseArgs_positional_prefix_dash (fun st fl v => st.Set fl.name v) pre
      { { fs with parsed := true } with args := [] } post hint hpre
  unfold FlagSet.Parse FlagSet.parseAll
  rw [if_neg hne]
  simp only [hlem]
  split
  · cases fs; simp
  · split <;> (cases fs; simp)

/-- Fixture for C1: a default flag set (as built by `NewFlagSet`) with no
flags registered. -/
def c1fs : FlagSet := NewFlagSet (str "zt") .continueOnError

/-- Counterexample to C1 as stated: this argument vector contains the exact
token `--` at position 1, yet parsing — which fails on the unknown flag
before reaching it — records no terminator index (the sentinel `-1`
remains), appends nothing to the positionals (in particular not `-x`), and
returns the unknown-flag error instead. -/
theorem c1_counterexample :
    (c1fs.Parse [str "--bogus", str "--", str "-x"]).1.argsLenAtDash = -1 ∧
    (c1fs.Parse [str "--bogus", str "--", str "-x"]).1.args = [] ∧
    (c1fs.Parse [str "--bogus", str "--", str "-x"]).2 = .err (.unknownFlag (str "bogus")) := by
  refine ⟨?_, ?_, ?_⟩ <;>
    simp [c1fs, NewFlagSet, FlagSet.Parse, FlagSet.parseAll, FlagSet.parseArgs,
      FlagSet.parseLongArg, FlagSet.longLookup, FlagSet.findFormal, splitFirst, str,
      FlagSet.stripUnknownFlagValue, FlagSet.addUnknownFlag, FlagSet.Validate]

/-- Witness for the amended C1 theorem on the vector `a -- -x`. -/
theorem c1_witness :
    (c1fs.interspersed = true ∧ ∀ t ∈ [str "a"], positionalShaped t = true) ∧
    (c1fs.Parse ([str "a"] ++ str "--" :: [str "-x"])).1 =
      { c1fs with
          parsed := true
          args := [str "a", str "-x"]
          argsLenAtDash := (1 : Int) } := by
  refine ⟨⟨rfl, by decide⟩, ?_⟩
  have h := c1_dash_terminator c1fs [str "a"] [str "-x"] rfl (by decide)
  simpa using h

/-! Claim C4: shorthand-only flags used with long-flag syntax. -/

/-- The separator-free split returns the whole string. -/
theorem splitFirst_not_mem (sep : Char) (l : GoStr) (h : sep ∉ l) :
    splitFirst sep l = (l, none) := by
  induction l with
  | nil => rfl
  | cons c rest ih =>
    have h1 : ¬ c = sep := fun hc => h (by simp [hc])
    have h2 : sep ∉ rest := fun hr => h (by simp [hr])
    simp [splitFirst, h1, ih h2]

/-- Stripping an unknown flag value never touches the flag store. -/
theorem stripUnknownFlagValue_flags (fs : FlagSet) (args : List GoStr) :
    (fs.stripUnknownFlagValue args).1.flags = fs.flags := by
  unfold FlagSet.stripUnknownFlagValue FlagSet.addUnknownFlag
  repeat' split
  all_goals rfl

/-- Stripping an unknown flag value only appends to the unknown-flag
record. -/
theorem stripUnknownFlagValue_unknown_mono (fs : FlagSet) (args : List GoStr) (u : GoStr)
    (h : u ∈ fs.unknownFlags) : u ∈ (fs.stripUnknownFlagValue args).1.unknownFlags := by
  unfold FlagSet.stripUnknownFlagValue FlagSet.addUnknownFlag
  repeat' split
  all_goals simp [h]

/-- C4 (amended): using the long name of a shorthand-only flag (bare form,
no `=` in the token) never reaches the flag: the token is recorded as an
unknown flag and skipped — with the usual swallowing of a following
non-flag value token — and the handler reports NO error, regardless of
whether the unknown-flag allowance is active.  The registered flags are
untouched and the setter is never invoked (the result does not depend on
`fn`), but the parse does not fail with UnknownFlag as the original claim
stated (`c4_counterexample`). -/
theorem c4_shorthand_only_long_use (fs : FlagSet) (fn : ParseFn) (c : Char) (cs : GoStr)
    (f : ZFlag) (args : List GoStr)
    (hfind : fs.findFormal (c :: cs) = some f) (hso : f.shorthandOnly = true)
    (hc1 : c ≠ '-') (hc2 : c ≠ '=') (hnoeq : ('=' : Char) ∉ (c :: cs)) :
    (fs.parseLongArg fn (str "--" ++ (c :: cs)) args).err = none ∧
    (fs.parseLongArg fn (str "--" ++ (c :: cs)) args).fs.flags = fs.flags ∧
    (str "--" ++ (c :: cs)) ∈ (fs.parseLongArg fn (str "--" ++ (c :: cs)) args).fs.unknownFlags := by
  have htok : str "--" ++ (c :: cs) = '-' :: '-' :: c :: cs := rfl
  rw [htok]
  unfold FlagSet.parseLongArg FlagSet.longLookup
  simp only [List.drop_succ_cons, List.drop_zero, splitFirst_not_mem '=' (c :: cs) hnoeq,
    hfind, hc1, hc2, or_self, if_neg, ite_false, hso, ite_true, Option.isSome_none,
    Bool.false_eq_true, not_false_eq_true]
  refine ⟨trivial, ?_, ?_⟩
  · rw [stripUnknownFlagValue_flags]
    rfl
  · apply stripUnknownFlagValue_unknown_mono
    simp [FlagSet.addUnknownFlag]

/-- Fixture for C4: a shorthand-only flag `verbose` with shorthand `v`, and
the unknown-flag allowance NOT active. -/
def c4fs : FlagSet :=
  { flags := [{ name := str "verbose", shorthand := 'v', shorthandOnly := true, value := .stringV [] }]
    shorthands := [('v', str "verbose")] }

/-- Counterexample to C4 as stated: with the unknown-flag allowance off, a
parse of the long form of the shorthand-only flag succeeds (outcome `ok`,
no UnknownFlag error); the token is merely recorded as unknown. -/
theorem c4_counterexample :
    c4fs.allowUnknownFlags = false ∧
    (c4fs.Parse [str "--verbose"]).2 = .ok ∧
    (c4fs.Parse [str "--verbose"]).1.unknownFlags = [str "--verbose"] := by
  refine ⟨rfl, ?_, ?_⟩ <;>
    simp [c4fs, FlagSet.Parse, FlagSet.parseAll, FlagSet.parseArgs, FlagSet.parseLongArg,
      FlagSet.longLookup, FlagSet.findFormal, splitFirst, str, FlagSet.stripUnknownFlagValue,
      FlagSet.addUnknownFlag, FlagSet.Validate, FlagSet.GetAllFlags, sortFlagsByName,
      insertByName]

/-- Witness for the amended C4 theorem. -/
theorem c4_witness :
    (c4fs.findFormal (str "verbose") =
        some { name := str "verbose", shorthand := 'v', shorthandOnly := true, value := .stringV [] } ∧
      c4fs.allowUnknownFlags = false) ∧
    (c4fs.parseLongArg (fun st fl v => st.Set fl.name v) (str "--verbose") []).err = none ∧
    (c4fs.parseLongArg (fun st fl v => st.Set fl.name v) (str "--verbose") []).fs.flags =
      c4fs.flags ∧
    (str "--verbose") ∈
      (c4fs.parseLongArg (fun st fl v => st.Set fl.name v) (str "--verbose") []).fs.unknownFlags := by
  refine ⟨⟨rfl, rfl⟩, ?_⟩
  exact c4_shorthand_only_long_use c4fs (fun st fl v => st.Set fl.name v) 'v' (str "erbose")
    { name := str "verbose", shorthand := 'v', shorthandOnly := true, value := .stringV [] }
    [] rfl rfl (by decide) (by decide) (by decide)

/-! Claim C5: bare long form of a mandatory-argument flag. -/

/-- C5: for a registered flag that is neither boolean-shaped nor
optional-argument (and reachable by its long name), parsing its bare long
form with no `=value` suffix and no following token yields the
missing-argument error (the `flag needs an argument` failure). -/
theorem c5_missing_argument (fs : FlagSet) (c : Char) (cs : GoStr) (f : ZFlag)
    (hfind : fs.findFormal (c :: cs) = some f) (hso : f.shorthandOnly = false)
    (hbool : f.value.isBoolFlag = false) (hopt : f.value.isOptional = false)
    (hc1 : c ≠ '-') (hc2 : c ≠ '=') (hnoeq : ('=' : Char) ∉ (c :: cs))
    (heh : fs.errorHandling = .continueOnError) :
    (fs.Parse [str "--" ++ (c :: cs)]).2 = .err (.needsArgument (str "--" ++ (c :: cs))) := by
  have htok : str "--" ++ (c :: cs) = '-' :: '-' :: c :: cs := rfl
  have hfind2 : fs.flags.find? (fun g => g.name = (c :: cs)) = some f := hfind
  rw [htok]
  unfold FlagSet.Parse FlagSet.parseAll
  rw [if_neg (by simp)]
  unfold FlagSet.parseArgs FlagSet.parseLongArg FlagSet.longLookup
  simp only [List.drop_succ_cons, List.drop_zero, splitFirst_not_mem '=' (c :: cs) hnoeq,
    FlagSet.findFormal, hfind2, hc1, hc2, or_self, if_neg, ite_false, hso, hbool, hopt,
    Bool.false_eq_true, not_false_eq_true, nextArgIsFlagValue, heh, reduceIte, reduceCtorEq]
  simp

/-- Fixture for the C5 witness: a plain string flag `name`. -/
def c5fs : FlagSet := { flags := [{ name := str "name", value := .stringV [] }] }

/-- Witness for C5: parsing `--name` alone fails with the missing-argument
error. -/
theorem c5_witness :
    (c5fs.findFormal (str "name") = some { name := str "name", value := .stringV [] } ∧
      c5fs.errorHandling = .continueOnError) ∧
    (c5fs.Parse [str "--name"]).2 = .err (.needsArgument (str "--name")) := by
  refine ⟨⟨rfl, rfl⟩, ?_⟩
  exact c5_missing_argument c5fs 'n' (str "ame") { name := str "name", value := .stringV [] }
    rfl rfl rfl rfl (by decide) (by decide) (by decide) rfl

/-! Claim C2: boolean flags with negation enabled. -/

/-- Negation direction of C2, proved over any registry satisfying the
non-interference conditions (no flag registered under the literal name
`no-<name>`, no `=` inside the name). -/
theorem c2_no_form (fs : FlagSet) (c : Char) (cs : GoStr) (f : ZFlag) (b : Bool)
    (hnofind : fs.findFormal ('n' :: 'o' :: '-' :: c :: cs) = none)
    (hfind : fs.findFormal (c :: cs) = some f)
    (hval : f.value = .boolV b) (hneg : f.addNegative = true) (hso : f.shorthandOnly = false)
    (hnoeq : ('=' : Char) ∉ (c :: cs)) :
    ((fs.Parse [str "--no-" ++ (c :: cs)]).1.findFormal (c :: cs)) =
      some { f with value := .boolV false, changed := true } := by
  have htok : str "--no-" ++ (c :: cs) = '-' :: '-' :: 'n' :: 'o' :: '-' :: c :: cs := rfl
  have hname : f.name = c :: cs := findFormal_name fs (c :: cs) f hfind
  have hfind2 : fs.flags.find? (fun g => g.name = (c :: cs)) = some f := hfind
  have hnofind2 : fs.flags.find? (fun g => g.name = ('n' :: 'o' :: '-' :: c :: cs)) = none := hnofind
  have hnoeq2 : ('=' : Char) ∉ ('n' :: 'o' :: '-' :: c :: cs) := by simp [hnoeq]
  have hSet := (Set_found { fs with parsed := true, args := ([] : List GoStr) } (c :: cs)
      (str "false") f hfind).2
  have hSetErr := (Set_found { fs with parsed := true, args := ([] : List GoStr) } (c :: cs)
      (str "false") f hfind).1
  rw [hval] at hSet hSetErr
  simp only [FlagValue.set, boolValueSet, goParseBool] at hSet hSetErr
  simp at hSet hSetErr
  simp only [FlagSet.findFormal, hname, hso, hneg] at hSet
  rw [htok]
  unfold FlagSet.Parse FlagSet.parseAll
  rw [if_neg (by simp)]
  unfold FlagSet.parseArgs FlagSet.parseLongArg FlagSet.longLookup
  simp only [List.drop_succ_cons, List.drop_zero, splitFirst_not_mem '=' _ hnoeq2,
    FlagSet.findFormal, hfind2, hnofind2, hso, hval, FlagValue.isBoolFlag,
    Bool.false_eq_true, not_false_eq_true, reduceIte, reduceCtorEq, List.length_cons, hneg,
    hname]
  simp only [FlagSet.parseArgs]
  simp only [List.isPrefixOf, Bool.and_eq_true, beq_iff_eq, reduceIte, reduceCtorEq,
    Bool.and_self, and_true, true_and, ite_true, ite_false]
  simp only [show (('-' : Char) ≠ '-') = False by simp,
    show (('n' : Char) = '-' ∨ ('n' : Char) = '=') = False by simp,
    show (List.length cs + 1 + 1 + 1 + 1 > 3) = True by simp,
    if_false, if_true, ite_true, ite_false]
  simp only [hso, Bool.false_eq_true, if_false, ite_false, Option.isSome_none, reduceIte,
    FlagValue.isBoolFlag, hname]
  simp only [hval, reduceIte]
  simp only [hSetErr]
  simp only [FlagSet.parseArgs]
  split <;> first | exact hSet | (split <;> exact hSet)

/-- Positive direction of C2: the plain long form of a boolean flag sets it
true (the flag's own name must not carry the negation marker, see the `no-`
retarget quirk handled in the negation direction). -/
theorem c2_plain_form (fs : FlagSet) (c : Char) (cs : GoStr) (f : ZFlag) (b : Bool)
    (hfind : fs.findFormal (c :: cs) = some f)
    (hval : f.value = .boolV b) (hneg : f.addNegative = true) (hso : f.shorthandOnly = false)
    (hc1 : c ≠ '-') (hc2 : c ≠ '=') (hnoeq : ('=' : Char) ∉ (c :: cs))
    (hnopfx : (str "no-").isPrefixOf (c :: cs) = false) :
    ((fs.Parse [str "--" ++ (c :: cs)]).1.findFormal (c :: cs)) =
      some { f with value := .boolV true, changed := true } := by
  have htok : str "--" ++ (c :: cs) = '-' :: '-' :: c :: cs := rfl
  have hname : f.name = c :: cs := findFormal_name fs (c :: cs) f hfind
  have hfind2 : fs.flags.find? (fun g => g.name = (c :: cs)) = some f := hfind
  have hSet := (Set_found { fs with parsed := true, args := ([] : List GoStr) } (c :: cs)
      (str "true") f hfind).2
  have hSetErr := (Set_found { fs with parsed := true, args := ([] : List GoStr) } (c :: cs)
      (str "true") f hfind).1
  rw [hval] at hSet hSetErr
  simp only [FlagValue.set, boolValueSet, goParseBool] at hSet hSetErr
  simp at hSet hSetErr
  simp only [FlagSet.findFormal, hname, hso] at hSet
  rw [htok]
  unfold FlagSet.Parse FlagSet.parseAll
  rw [if_neg (by simp)]
  unfold FlagSet.parseArgs FlagSet.parseLongArg FlagSet.longLookup
  simp only [List.drop_succ_cons, List.drop_zero, splitFirst_not_mem '=' _ hnoeq,
    FlagSet.findFormal, hfind2, hso, hval, FlagValue.isBoolFlag,
    Bool.false_eq_true, not_false_eq_true, reduceIte, reduceCtorEq, hname, hc1, hc2, or_self,
    ite_false, if_neg, hnopfx]
  try simp only [FlagSet.parseArgs]
  simp only [hSetErr]
  try simp only [FlagSet.parseArgs]
  split <;> first | exact hSet | (split <;> exact hSet)


/-- C2: for every registered boolean flag with negation enabled (reachable
by its long name, the name free of `=` and not itself starting with the
negation marker `no-`, and no other flag registered under the literal
`no-`-prefixed name), parsing the token `--no-<name>` sets the flag's value
to false and marks the flag changed, and parsing `--<name>` sets the value
to true and marks it changed. -/
theorem c2_bool_negation :
    (∀ (fs : FlagSet) (c : Char) (cs : GoStr) (f : ZFlag) (b : Bool),
      fs.findFormal ('n' :: 'o' :: '-' :: c :: cs) = none →
      fs.findFormal (c :: cs) = some f →
      f.value = .boolV b → f.addNegative = true → f.shorthandOnly = false →
      ('=' : Char) ∉ (c :: cs) →
      ((fs.Parse [str "--no-" ++ (c :: cs)]).1.findFormal (c :: cs)) =
        some { f with value := .boolV false, changed := true }) ∧
    (∀ (fs : FlagSet) (c : Char) (cs : GoStr) (f : ZFlag) (b : Bool),
      fs.findFormal (c :: cs) = some f →
      f.value = .boolV b → f.addNegative = true → f.shorthandOnly = false →
      c ≠ '-' → c ≠ '=' → ('=' : Char) ∉ (c :: cs) →
      (str "no-").isPrefixOf (c :: cs) = false →
      ((fs.Parse [str "--" ++ (c :: cs)]).1.findFormal (c :: cs)) =
        some { f with value := .boolV true, changed := true }) :=
  ⟨fun fs c cs f b h1 h2 h3 h4 h5 h6 => c2_no_form fs c cs f b h1 h2 h3 h4 h5 h6,
   fun fs c cs f b h1 h2 h3 h4 h5 h6 h7 h8 => c2_plain_form fs c cs f b h1 h2 h3 h4 h5 h6 h7 h8⟩

/-- Fixture for the C2 witness: one negation-enabled boolean flag
`verbose`, default false. -/
def c2fs : FlagSet :=
  { flags := [{ name := str "verbose", addNegative := true, value := .boolV false }] }

/-- Witness for C2: `--no-verbose` stores false and marks the flag changed;
`--verbose` stores true. -/
theorem c2_witness :
    (c2fs.findFormal (str "no-verbose") = none ∧
      c2fs.findFormal (str "verbose") =
        some { name := str "verbose", addNegative := true, value := .boolV false }) ∧
    ((c2fs.Parse [str "--no-verbose"]).1.findFormal (str "verbose") =
      some { name := str "verbose", addNegative := true, value := .boolV false, changed := true } ∧
     (c2fs.Parse [str "--verbose"]).1.findFormal (str "verbose") =
      some { name := str "verbose", addNegative := true, value := .boolV true, changed := true }) := by
  refine ⟨⟨rfl, rfl⟩, ?_, ?_⟩
  · exact c2_bool_negation.1 c2fs 'v' (str "erbose")
      { name := str "verbose", addNegative := true, value := .boolV false } false
      rfl rfl rfl rfl rfl (by decide)
  · exact c2_bool_negation.2 c2fs 'v' (str "erbose")
      { name := str "verbose", addNegative := true, value := .boolV false } false
      rfl rfl rfl rfl (by decide) (by decide) (by decide) (by decide)

/-! Frame lemmas for `FlagSet.Set`, used by the cluster and re-parse
claims. -/

/-- Fields of the registry other than the flag store and the set-flags
records are untouched by `Set`. -/
theorem Set_frame (fs : FlagSet) (nm v : GoStr) :
    (fs.Set nm v).1.shorthands = fs.shorthands ∧
    (fs.Set nm v).1.args = fs.args ∧
    (fs.Set nm v).1.argsLenAtDash = fs.argsLenAtDash ∧
    (fs.Set nm v).1.unknownFlags = fs.unknownFlags ∧
    (fs.Set nm v).1.interspersed = fs.interspersed ∧
    (fs.Set nm v).1.errorHandling = fs.errorHandling ∧
    (fs.Set nm v).1.allowUnknownFlags = fs.allowUnknownFlags ∧
    (fs.Set nm v).1.allowRequiredFlags = fs.allowRequiredFlags ∧
    (fs.Set nm v).1.disableBuiltinHelp = fs.disableBuiltinHelp ∧
    (fs.Set nm v).1.sortFlags = fs.sortFlags ∧
    (fs.Set nm v).1.parsed = fs.parsed ∧
    (fs.Set nm v).1.name = fs.name := by
  unfold FlagSet.Set
  repeat' split
  all_goals (repeat' constructor)
  all_goals simp [apply_ite]

/-- A name-preserving pointer update keeps the name sequence of the store. -/
theorem updateFlagNamed_map_name (l : List ZFlag) (n : GoStr) (upd : ZFlag → ZFlag)
    (h : ∀ g, (upd g).name = g.name) :
    (updateFlagNamed l n upd).map (fun g => g.name) = l.map (fun g => g.name) := by
  induction l with
  | nil => rfl
  | cons a l ih =>
    simp only [updateFlagNamed, List.map_cons] at ih ⊢
    rw [ih]
    split <;> simp [h]

/-- `Set` keeps the name sequence of the store (it registers or removes
nothing). -/
theorem Set_flags_names (fs : FlagSet) (nm v : GoStr) :
    (fs.Set nm v).1.flags.map (fun g => g.name) = fs.flags.map (fun g => g.name) := by
  unfold FlagSet.Set
  repeat' split
  all_goals simp [apply_ite, updateFlagNamed_map_name]

/-- `Set` does not touch flags registered under a different name. -/
theorem Set_findFormal_other (fs : FlagSet) (nm v m : GoStr) (hm : m ≠ nm) :
    (fs.Set nm v).1.findFormal m = fs.findFormal m := by
  unfold FlagSet.Set
  rcases hf : fs.findFormal nm with _ | flag
  · rfl
  · simp only [FlagSet.findFormal]
    have h1 := find?_updateFlagNamed_other fs.flags nm m
        (fun g => { g with value := (flag.value.set v).1 }) (fun g => rfl) hm
    have h2 := find?_updateFlagNamed_other
        (updateFlagNamed fs.flags nm (fun g => { g with value := (flag.value.set v).1 })) nm m
        (fun g => { g with value := (flag.value.set v).1, changed := true }) (fun g => rfl) hm
    repeat' split
    all_goals simp_all [FlagSet.findFormal]

/-! Claim C3: value consumption inside a shorthand cluster. -/

/-- One shorthand step of the cluster where the flag is resolved, the cluster
remainder offers no in-cluster value (it is empty, too short for `=`, and its
next character is a registered shorthand), the flag is not boolean-shaped and
the following token does not start with `-`: the setter receives the following
token, the rest of the cluster is returned for further processing and the
token is dropped from the remaining arguments. -/
theorem parseSingleShortArg_next_token (fs : FlagSet) (fn : ParseFn) (char : Char)
    (rest : GoStr) (nm : GoStr) (f : ZFlag) (d : Char) (ds : GoStr) (tl : List GoStr)
    (hsh : fs.shorthands.find? (fun p => p.1 = char) = some (char, nm))
    (hf : fs.findFormal nm = some f)
    (hns : (match rest with | [] => false | c2 :: _ => !fs.shorthandKeyExists c2) = false)
    (hlen : rest.length <= 1)
    (hbool : f.value.isBoolFlag = false)
    (hd : d ≠ '-') :
    fs.parseSingleShortArg fn (char :: rest) ((d :: ds) :: tl) =
      ⟨(fn fs f (d :: ds)).1, rest, tl, (fn fs f (d :: ds)).2⟩ := by
  have h1 : decide (rest.length > 1) = false := by simp; omega
  have hnav : nextArgIsFlagValue ((d :: ds) :: tl) = true := by
    simp [nextArgIsFlagValue, hd]
  unfold FlagSet.parseSingleShortArg FlagSet.shorthandFlag FlagSet.parseSingleShortCore
  simp only [hsh, hf, h1, hns, hbool, hnav, Bool.false_and, Bool.not_false, Bool.true_and,
    Bool.true_or, Bool.false_eq_true, if_false, if_true, reduceIte, List.headD_cons,
    List.tail_cons]

/-- C3 (amended): consuming the following token as a shorthand value is NOT a
terminal condition for the cluster.  For a cluster `-<c1><c2>` of two
registered string shorthands followed by a non-dash token, the loop keeps
feeding the ORIGINAL argument list to every iteration, so BOTH flags consume
the very same following token as their value (it is removed from the
positional arguments only once).  Only in-cluster consumption (`-f=v` /
`-fv`), errors and help are terminal. -/
theorem c3_cluster_value_not_terminal (fs : FlagSet) (c1 c2 : Char) (nm1 nm2 : GoStr)
    (f1 f2 : ZFlag) (s1 s2 : GoStr) (d : Char) (ds : GoStr)
    (hsh1 : fs.shorthands.find? (fun p => p.1 = c1) = some (c1, nm1))
    (hsh2 : fs.shorthands.find? (fun p => p.1 = c2) = some (c2, nm2))
    (hf1 : fs.findFormal nm1 = some f1) (hf2 : fs.findFormal nm2 = some f2)
    (hv1 : f1.value = .stringV s1) (hv2 : f2.value = .stringV s2)
    (hnm : nm2 ≠ nm1) (hc1 : c1 ≠ '-') (hd : d ≠ '-') :
    ((fs.Parse [['-', c1, c2], d :: ds]).1.findFormal nm1 =
      some { f1 with value := .stringV (d :: ds), changed := true }) ∧
    ((fs.Parse [['-', c1, c2], d :: ds]).1.findFormal nm2 =
      some { f2 with value := .stringV (d :: ds), changed := true }) ∧
    (fs.Parse [['-', c1, c2], d :: ds]).1.args = [] := by
  have hn1 : f1.name = nm1 := findFormal_name fs nm1 f1 hf1
  have hn2 : f2.name = nm2 := findFormal_name fs nm2 f2 hf2
  have hboolA : f1.value.isBoolFlag = false := by rw [hv1]; rfl
  have hboolB : f2.value.isBoolFlag = false := by rw [hv2]; rfl
  set fn : ParseFn := fun st fl v => st.Set fl.name v with hfndef
  set fs0 : FlagSet := { fs with parsed := true, args := ([] : List GoStr) } with hfs0
  have hsh1w : fs0.shorthands.find? (fun p => p.1 = c1) = some (c1, nm1) := hsh1
  have hf1w : fs0.findFormal nm1 = some f1 := hf1
  have hns1 : (match ([c2] : GoStr) with
      | [] => false | e :: _ => !fs0.shorthandKeyExists e) = false := by
    simp only [FlagSet.shorthandKeyExists]
    have : fs0.shorthands.find? (fun p => p.1 = c2) = some (c2, nm2) := hsh2
    simp [this]
  have hA := parseSingleShortArg_next_token fs0 fn c1 [c2] nm1 f1 d ds [] hsh1w hf1w hns1
    (by simp) hboolA hd
  have hSet1 := Set_found fs0 nm1 (d :: ds) f1 hf1w
  rw [hv1] at hSet1
  simp only [FlagValue.set, Bool.false_eq_true, if_false, reduceIte] at hSet1
  set fsA : FlagSet := (fs0.Set nm1 (d :: ds)).1 with hfsA
  have hshframe := (Set_frame fs0 nm1 (d :: ds)).1
  have hsh2w : fsA.shorthands.find? (fun p => p.1 = c2) = some (c2, nm2) := by
    rw [← hfsA] at hshframe
    rw [hshframe]; exact hsh2
  have hf2w : fsA.findFormal nm2 = some f2 := by
    rw [hfsA, Set_findFormal_other fs0 nm1 (d :: ds) nm2 hnm]; exact hf2
  have hB := parseSingleShortArg_next_token fsA fn c2 [] nm2 f2 d ds [] hsh2w hf2w rfl
    (by simp) hboolB hd
  have hSet2 := Set_found fsA nm2 (d :: ds) f2 hf2w
  rw [hv2] at hSet2
  simp only [FlagValue.set, Bool.false_eq_true, if_false, reduceIte] at hSet2
  have hfnA : fn fs0 f1 (d :: ds) = fs0.Set nm1 (d :: ds) := by rw [hfndef]; simp [hn1]
  have hfnB : fn fsA f2 (d :: ds) = fsA.Set nm2 (d :: ds) := by rw [hfndef]; simp [hn2]
  rw [hfnA] at hA
  rw [hfnB] at hB
  have hloop : fs0.shortClusterLoop fn [c1, c2] [d :: ds] [d :: ds] =
      (((fsA.Set nm2 (d :: ds)).1), [], none) := by
    unfold FlagSet.shortClusterLoop
    simp only [hA, hSet1.1, ← hfsA, hB, hSet2.1]
    simp only [reduceCtorEq, if_false, reduceIte]
    unfold FlagSet.shortClusterLoop
    simp only [hB, hSet2.1]
    simp
  have hshort : fs0.parseShortArg fn ['-', c1, c2] [d :: ds] =
      (((fsA.Set nm2 (d :: ds)).1), [], none) := by
    unfold FlagSet.parseShortArg
    simpa using hloop
  have hargs : fs0.parseArgs fn [['-', c1, c2], d :: ds] =
      ((fsA.Set nm2 (d :: ds)).1, ((fsA.Set nm2 (d :: ds)).1).Validate) := by
    unfold FlagSet.parseArgs
    simp only [ne_eq, reduceCtorEq, not_false_eq_true, reduceIte, hc1, if_false, if_true,
      not_true, ite_false, ite_true, hshort]
    unfold FlagSet.parseArgs
    rfl
  have hParse1 : (fs.Parse [['-', c1, c2], d :: ds]).1 = (fsA.Set nm2 (d :: ds)).1 := by
    unfold FlagSet.Parse FlagSet.parseAll
    rw [if_neg (by simp)]
    rw [← hfndef]
    simp only []
    have hargs2 : ({ fs with parsed := true, args := ([] : List GoStr) } : FlagSet).parseArgs
        fn [['-', c1, c2], d :: ds] =
        ((fsA.Set nm2 (d :: ds)).1, ((fsA.Set nm2 (d :: ds)).1).Validate) := hargs
    rw [hargs2]
    rcases hV : ((fsA.Set nm2 (d :: ds)).1).Validate with _ | e
    · rfl
    · cases hEH : ((fsA.Set nm2 (d :: ds)).1).errorHandling <;> rfl
  refine ⟨?_, ?_, ?_⟩
  · rw [hParse1, Set_findFormal_other fsA nm2 (d :: ds) nm1 (Ne.symm hnm)]
    exact hSet1.2
  · rw [hParse1]
    exact hSet2.2
  · rw [hParse1, (Set_frame fsA nm2 (d :: ds)).2.1, hfsA, (Set_frame fs0 nm1 (d :: ds)).2.1,
      hfs0]

/-- Fixture flag `alpha` (shorthand `a`, string) for the C3 scenario. -/
def c3fA : ZFlag := { name := str "alpha", shorthand := 'a', value := .stringV [] }

/-- Fixture flag `beta` (shorthand `b`, string) for the C3 scenario. -/
def c3fB : ZFlag := { name := str "beta", shorthand := 'b', value := .stringV [] }

/-- Fixture registry for the C3 scenario: the two string shorthands `a`, `b`. -/
def c3fs : FlagSet :=
  { flags := [c3fA, c3fB]
    shorthands := [('a', str "alpha"), ('b', str "beta")] }

/-- Counterexample to C3 as claimed: in the cluster `-ab` followed by the
token `val`, the first shorthand `a` consumes `val` from the following
position, yet the cluster does NOT stop — `b` is still processed and consumes
the SAME token `val` again, so a following token is consumed as a value twice
in one cluster. -/
theorem c3_counterexample :
    ((c3fs.Parse [str "-ab", str "val"]).1.findFormal (str "alpha")).map
        (fun f => (f.value, f.changed)) = some (.stringV (str "val"), true) ∧
    ((c3fs.Parse [str "-ab", str "val"]).1.findFormal (str "beta")).map
        (fun f => (f.value, f.changed)) = some (.stringV (str "val"), true) ∧
    (c3fs.Parse [str "-ab", str "val"]).1.args = [] := by
  refine ⟨?_, ?_, ?_⟩ <;>
    simp [c3fs, c3fA, c3fB, FlagSet.Parse, FlagSet.parseAll, FlagSet.parseArgs,
      FlagSet.parseShortArg, FlagSet.shortClusterLoop, FlagSet.parseSingleShortArg,
      FlagSet.parseSingleShortCore, FlagSet.shorthandFlag, FlagSet.shorthandKeyExists,
      FlagSet.findFormal, FlagSet.Set, updateFlagNamed, FlagValue.set, FlagValue.isBoolFlag,
      nextArgIsFlagValue, FlagSet.Validate, FlagSet.GetAllFlags, sortFlagsByName,
      insertByName, goStrLe, str]

/-- Witness for the amended C3 theorem on the `alpha`/`beta` fixture. -/
theorem c3_witness :
    (c3fs.shorthands.find? (fun p => p.1 = 'a') = some ('a', str "alpha") ∧
     c3fs.shorthands.find? (fun p => p.1 = 'b') = some ('b', str "beta") ∧
     c3fs.findFormal (str "alpha") = some c3fA ∧
     c3fs.findFormal (str "beta") = some c3fB ∧
     c3fA.value = .stringV [] ∧ c3fB.value = .stringV [] ∧
     str "beta" ≠ str "alpha" ∧ ('a' : Char) ≠ '-' ∧ ('v' : Char) ≠ '-') ∧
    ((c3fs.Parse [['-', 'a', 'b'], 'v' :: str "al"]).1.findFormal (str "alpha") =
        some { c3fA with value := .stringV ('v' :: str "al"), changed := true }) ∧
    ((c3fs.Parse [['-', 'a', 'b'], 'v' :: str "al"]).1.findFormal (str "beta") =
        some { c3fB with value := .stringV ('v' :: str "al"), changed := true }) ∧
    (c3fs.Parse [['-', 'a', 'b'], 'v' :: str "al"]).1.args = [] := by
  refine ⟨⟨rfl, rfl, rfl, rfl, rfl, rfl, by decide, by decide, by decide⟩, ?_⟩
  exact c3_cluster_value_not_terminal c3fs 'a' 'b' (str "alpha") (str "beta") c3fA c3fB
    [] [] 'v' (str "al") rfl rfl rfl rfl rfl rfl (by decide) (by decide) (by decide)

/-! Claim C10: the set-flags records of successful Set calls. -/

/-- Well-formedness of the set-flags records: the ordered list is
duplicate-free, carries exactly the key set of the actual map (same members,
same cardinality), and every recorded name points at a flag whose changed
marker is up. -/
def FlagSet.actualWf (fs : FlagSet) : Prop :=
  fs.orderedActual.Nodup ∧
  (∀ n ∈ fs.actual, n ∈ fs.orderedActual) ∧
  (∀ n ∈ fs.orderedActual, n ∈ fs.actual) ∧
  fs.actual.length = fs.orderedActual.length ∧
  ∀ n ∈ fs.orderedActual, ((fs.findFormal n).map (fun g => g.changed)).getD false = true

/-- A pointer update that preserves names and never lowers the changed
marker keeps the marker condition of a recorded name. -/
theorem changedMarker_mono (l : List ZFlag) (nm : GoStr) (upd : ZFlag → ZFlag)
    (hname : ∀ g, (upd g).name = g.name)
    (hch : ∀ g, g.changed = true → (upd g).changed = true) (n : GoStr)
    (h : ((l.find? (fun g => g.name = n)).map (fun g => g.changed)).getD false = true) :
    (((updateFlagNamed l nm upd).find? (fun g => g.name = n)).map
      (fun g => g.changed)).getD false = true := by
  rw [find?_updateFlagNamed l nm n upd hname]
  rcases hf : l.find? (fun g => g.name = n) with _ | g
  · rw [hf] at h; simp at h
  · rw [hf] at h
    rw [hf]
    simp at h ⊢
    split
    · exact hch g h
    · exact h

/-- C10: a successful `Set` preserves the set-flags well-formedness; the
flag's changed marker is up afterwards; the first successful set (changed
still false) appends the name exactly once to both records, while any later
successful set leaves both records untouched; the ordered list keeps the
cardinality of the actual map. -/
theorem c10_set_once (fs : FlagSet) (nm v : GoStr) (f : ZFlag)
    (hwf : fs.actualWf)
    (hfind : fs.findFormal nm = some f)
    (hok : (f.value.set v).2 = false) :
    (fs.Set nm v).2 = none ∧
    (fs.Set nm v).1.actualWf ∧
    ((((fs.Set nm v).1.findFormal nm).map (fun g => g.changed)).getD false = true) ∧
    (f.changed = false →
      (fs.Set nm v).1.orderedActual = fs.orderedActual ++ [nm] ∧
      (fs.Set nm v).1.actual = fs.actual ++ [nm] ∧
      (fs.Set nm v).1.orderedActual.count nm = 1) ∧
    (f.changed = true →
      (fs.Set nm v).1.orderedActual = fs.orderedActual ∧
      (fs.Set nm v).1.actual = fs.actual) ∧
    (fs.Set nm v).1.actual.length = (fs.Set nm v).1.orderedActual.length := by
  obtain ⟨hnd, hao, hoa, hlen, hmk⟩ := hwf
  have hSF := Set_found fs nm v f hfind
  rw [hok] at hSF
  simp only [Bool.false_eq_true, if_false, reduceIte] at hSF
  have hmark : (((fs.Set nm v).1.findFormal nm).map (fun g => g.changed)).getD false = true := by
    rw [hSF.2]; simp
  by_cases hch : f.changed = true
  · have hres1 : (fs.Set nm v).1 = { fs with
        flags := updateFlagNamed fs.flags nm (fun g => { g with value := (f.value.set v).1 }) } := by
      unfold FlagSet.Set
      rw [hfind]
      simp [hok, hch]
    have hmark2 := hmark
    rw [hres1] at hmark2
    refine ⟨hSF.1, ⟨?_, ?_, ?_, ?_, ?_⟩, hmark, ?_, ?_, ?_⟩
    · rw [hres1]; exact hnd
    · rw [hres1]; exact hao
    · rw [hres1]; exact hoa
    · rw [hres1]; exact hlen
    · rw [hres1]
      intro n hn
      simp only [FlagSet.findFormal]
      exact changedMarker_mono fs.flags nm (fun g => { g with value := (f.value.set v).1 })
        (fun g => rfl) (fun g h => h) n (hmk n hn)
    · intro hcf; rw [hcf] at hch; simp at hch
    · intro h1; rw [hres1]; exact ⟨rfl, rfl⟩
    · rw [hres1]; exact hlen
  · have hcf : f.changed = false := by simpa using hch
    have hnmO : nm ∉ fs.orderedActual := by
      intro hmem
      have h5 := hmk nm hmem
      rw [hfind] at h5
      simp [hcf] at h5
    have hnmA : nm ∉ fs.actual := fun hmem => hnmO (hao nm hmem)
    have hcont : fs.actual.contains nm = false := by
      simp
      exact hnmA
    have hres1 : (fs.Set nm v).1 = { fs with
        flags := updateFlagNamed (updateFlagNamed fs.flags nm (fun g => { g with value := (f.value.set v).1 })) nm (fun g => { g with value := (f.value.set v).1, changed := true })
        actual := fs.actual ++ [nm]
        orderedActual := fs.orderedActual ++ [nm] } := by
      unfold FlagSet.Set
      rw [hfind]
      simp [hok, hcf, hcont, hnmA]
    have hmark2 := hmark
    rw [hres1] at hmark2
    refine ⟨hSF.1, ⟨?_, ?_, ?_, ?_, ?_⟩, hmark, ?_, ?_, ?_⟩
    · rw [hres1]
      simp [List.nodup_append, hnd, hnmO]
    · rw [hres1]
      intro n hn
      simp only [List.mem_append, List.mem_singleton] at hn ⊢
      rcases hn with hn | hn
      · exact Or.inl (hao n hn)
      · exact Or.inr hn
    · rw [hres1]
      intro n hn
      simp only [List.mem_append, List.mem_singleton] at hn ⊢
      rcases hn with hn | hn
      · exact Or.inl (hoa n hn)
      · exact Or.inr hn
    · rw [hres1]
      simp [hlen]
    · rw [hres1]
      intro n hn
      simp only [List.mem_append, List.mem_singleton] at hn
      rcases hn with hn | hn
      · simp only [FlagSet.findFormal]
        exact changedMarker_mono
          (updateFlagNamed fs.flags nm (fun g => { g with value := (f.value.set v).1 })) nm
          (fun g => { g with value := (f.value.set v).1, changed := true })
          (fun g => rfl) (fun g h => rfl) n
          (changedMarker_mono fs.flags nm (fun g => { g with value := (f.value.set v).1 })
            (fun g => rfl) (fun g h => h) n (hmk n hn))
      · rw [hn]
        exact hmark2
    · intro h0
      rw [hres1]
      refine ⟨rfl, rfl, ?_⟩
      simp [List.count_append, List.count_eq_zero.mpr hnmO]
    · intro h1; rw [h1] at hcf; simp at hcf
    · rw [hres1]
      simp [hlen]

/-- Fixture flag for the C10 witness: a plain string flag `mode`. -/
def c10flag : ZFlag := { name := str "mode", value := .stringV [] }

/-- Fixture registry for the C10 witness. -/
def c10fs : FlagSet := { flags := [c10flag] }

/-- Witness for C10: the first successful set of `mode` registers it exactly
once in both set-flags records. -/
theorem c10_witness :
    (c10fs.actualWf ∧ c10fs.findFormal (str "mode") = some c10flag ∧
      (c10flag.value.set (str "x")).2 = false) ∧
    ((c10fs.Set (str "mode") (str "x")).2 = none ∧
     (c10fs.Set (str "mode") (str "x")).1.actualWf ∧
     ((((c10fs.Set (str "mode") (str "x")).1.findFormal (str "mode")).map
        (fun g => g.changed)).getD false = true) ∧
     (c10flag.changed = false →
       (c10fs.Set (str "mode") (str "x")).1.orderedActual = c10fs.orderedActual ++ [str "mode"] ∧
       (c10fs.Set (str "mode") (str "x")).1.actual = c10fs.actual ++ [str "mode"] ∧
       (c10fs.Set (str "mode") (str "x")).1.orderedActual.count (str "mode") = 1) ∧
     (c10flag.changed = true →
       (c10fs.Set (str "mode") (str "x")).1.orderedActual = c10fs.orderedActual ∧
       (c10fs.Set (str "mode") (str "x")).1.actual = c10fs.actual) ∧
     (c10fs.Set (str "mode") (str "x")).1.actual.length =
       (c10fs.Set (str "mode") (str "x")).1.orderedActual.length) := by
  have hwf : c10fs.actualWf := ⟨List.nodup_nil, by simp [c10fs], by simp [c10fs], rfl, by simp [c10fs]⟩
  refine ⟨⟨hwf, rfl, rfl⟩, ?_⟩
  exact c10_set_once c10fs (str "mode") (str "x") c10flag hwf rfl rfl

/-! Claim C7: what a parse call does and does not reset. -/

/-- The unknown-value stripper touches only the unknown-flags record. -/
theorem stripUnknownFlagValue_frame (fs : FlagSet) (args : List GoStr) :
    (fs.stripUnknownFlagValue args).1.argsLenAtDash = fs.argsLenAtDash ∧
    (fs.stripUnknownFlagValue args).1.flags = fs.flags := by
  unfold FlagSet.stripUnknownFlagValue
  repeat' split
  all_goals simp [FlagSet.addUnknownFlag]

/-- With a setter callback that preserves the terminator index and the
registered names, long-argument handling preserves them too. -/
theorem parseLongArg_frame (fs : FlagSet) (fn : ParseFn) (s : GoStr) (args : List GoStr)
    (hfn : ∀ st fl v, (fn st fl v).1.argsLenAtDash = st.argsLenAtDash ∧
      (fn st fl v).1.flags.map (fun g => g.name) = st.flags.map (fun g => g.name)) :
    (fs.parseLongArg fn s args).fs.argsLenAtDash = fs.argsLenAtDash ∧
    (fs.parseLongArg fn s args).fs.flags.map (fun g => g.name) =
      fs.flags.map (fun g => g.name) := by
  unfold FlagSet.parseLongArg
  split
  · simp
  · rename_i x c cs heq
    split
    · simp
    · rcases h : (fs.longLookup (splitFirst '=' (c :: cs)).1
          (List.isPrefixOf (str "no-") (c :: cs))).1 with _ | f <;> simp only [h]
      · repeat' split
        all_goals (try simp)
        all_goals first
          | exact ⟨(hfn _ _ _).1, (hfn _ _ _).2⟩
          | simp [FlagSet.addUnknownFlag]
        all_goals (
          have hs := stripUnknownFlagValue_frame (fs.addUnknownFlag s) args
          simp only [FlagSet.addUnknownFlag] at hs
          exact ⟨hs.1, by rw [hs.2]⟩)
      · repeat' split
        all_goals (try simp)
        all_goals first
          | exact ⟨(hfn _ _ _).1, (hfn _ _ _).2⟩
          | simp [FlagSet.addUnknownFlag]
        all_goals (
          have hs := stripUnknownFlagValue_frame (fs.addUnknownFlag s) args
          simp only [FlagSet.addUnknownFlag] at hs
          exact ⟨hs.1, by rw [hs.2]⟩)

/-- Same frame property for a single shorthand step. -/
theorem parseSingleShortArg_frame (fs : FlagSet) (fn : ParseFn) (shorthands : GoStr)
    (args : List GoStr)
    (hfn : ∀ st fl v, (fn st fl v).1.argsLenAtDash = st.argsLenAtDash ∧
      (fn st fl v).1.flags.map (fun g => g.name) = st.flags.map (fun g => g.name)) :
    (fs.parseSingleShortArg fn shorthands args).fs.argsLenAtDash = fs.argsLenAtDash ∧
    (fs.parseSingleShortArg fn shorthands args).fs.flags.map (fun g => g.name) =
      fs.flags.map (fun g => g.name) := by
  unfold FlagSet.parseSingleShortArg FlagSet.parseSingleShortCore
  repeat' split
  all_goals (try simp)
  all_goals (repeat' split)
  all_goals (try simp)
  all_goals first
    | exact ⟨(hfn _ _ _).1, (hfn _ _ _).2⟩
    | (simp [FlagSet.addUnknownFlag]
       done)
    | (constructor
       · rw [(stripUnknownFlagValue_frame _ _).1]
         try simp [FlagSet.addUnknownFlag]
       · rw [(stripUnknownFlagValue_frame _ _).2]
         try simp [FlagSet.addUnknownFlag])

/-- Same frame property for the whole shorthand cluster loop. -/
theorem shortClusterLoop_frame (fn : ParseFn)
    (hfn : ∀ st fl v, (fn st fl v).1.argsLenAtDash = st.argsLenAtDash ∧
      (fn st fl v).1.flags.map (fun g => g.name) = st.flags.map (fun g => g.name))
    (shorthands : GoStr) :
    ∀ (fs : FlagSet) (args outArgs : List GoStr),
      (fs.shortClusterLoop fn shorthands args outArgs).1.argsLenAtDash = fs.argsLenAtDash ∧
      (fs.shortClusterLoop fn shorthands args outArgs).1.flags.map (fun g => g.name) =
        fs.flags.map (fun g => g.name) := by
  induction shorthands with
  | nil => intro fs args outArgs; exact ⟨rfl, rfl⟩
  | cons char rest ih =>
    intro fs args outArgs
    have hstep := parseSingleShortArg_frame fs fn (char :: rest) args hfn
    unfold FlagSet.shortClusterLoop
    rcases herr : (fs.parseSingleShortArg fn (char :: rest) args).err with _ | e
    · simp only [herr]
      by_cases houts : (fs.parseSingleShortArg fn (char :: rest) args).outShorts = []
      · simp only [houts, if_pos rfl]
        exact hstep
      · simp only [if_neg houts]
        have hrec := ih (fs.parseSingleShortArg fn (char :: rest) args).fs args
          (fs.parseSingleShortArg fn (char :: rest) args).outArgs
        exact ⟨hrec.1.trans hstep.1, hrec.2.trans hstep.2⟩
    · simp only [herr]
      exact hstep

/-- Same frame property for `parseShortArg`. -/
theorem parseShortArg_frame (fs : FlagSet) (fn : ParseFn) (s : GoStr) (args : List GoStr)
    (hfn : ∀ st fl v, (fn st fl v).1.argsLenAtDash = st.argsLenAtDash ∧
      (fn st fl v).1.flags.map (fun g => g.name) = st.flags.map (fun g => g.name)) :
    (fs.parseShortArg fn s args).1.argsLenAtDash = fs.argsLenAtDash ∧
    (fs.parseShortArg fn s args).1.flags.map (fun g => g.name) =
      fs.flags.map (fun g => g.name) := by
  unfold FlagSet.parseShortArg
  exact shortClusterLoop_frame fn hfn (s.drop 1) fs args args

/-- Frame property of the token loop: when the vector never contains the
exact terminator token `--`, the terminator index is carried over unchanged,
and the registered name sequence is always preserved. -/
theorem parseArgs_frame (fn : ParseFn)
    (hfn : ∀ st fl v, (fn st fl v).1.argsLenAtDash = st.argsLenAtDash ∧
      (fn st fl v).1.flags.map (fun g => g.name) = st.flags.map (fun g => g.name)) :
    ∀ (n : Nat) (argv : List GoStr), argv.length ≤ n →
      ('-' :: '-' :: ([] : GoStr)) ∉ argv →
      ∀ fs : FlagSet,
      (fs.parseArgs fn argv).1.argsLenAtDash = fs.argsLenAtDash ∧
      (fs.parseArgs fn argv).1.flags.map (fun g => g.name) =
        fs.flags.map (fun g => g.name) := by
  intro n
  induction n with
  | zero =>
    intro argv hl hmem fs
    have hnil : argv = [] := List.length_eq_zero.mp (Nat.le_zero.mp hl)
    subst hnil
    unfold FlagSet.parseArgs
    exact ⟨rfl, rfl⟩
  | succ n ih =>
    intro argv hl hmem fs
    rcases argv with _ | ⟨s, args⟩
    · unfold FlagSet.parseArgs
      exact ⟨rfl, rfl⟩
    · have hlargs : args.length ≤ n := by simp at hl; omega
      have hmemargs : ('-' :: '-' :: ([] : GoStr)) ∉ args := by
        intro h; exact hmem (List.mem_cons_of_mem s h)
      rcases s with _ | ⟨c0, s1⟩
      · simp only [FlagSet.parseArgs]
        cases hint : fs.interspersed
        · simp
        · rw [if_neg (by simp)]
          exact ih args hlargs hmemargs { fs with args := fs.args ++ [[]], interspersed := true }
      rcases s1 with _ | ⟨c1, crest⟩
      · simp only [FlagSet.parseArgs]
        cases hint : fs.interspersed
        · simp
        · rw [if_neg (by simp)]
          exact ih args hlargs hmemargs { fs with args := fs.args ++ [[c0]], interspersed := true }
      simp only [FlagSet.parseArgs]
      by_cases hc0 : c0 ≠ '-'
      · rw [if_pos hc0]
        cases hint : fs.interspersed
        · simp
        · rw [if_neg (by simp)]
          exact ih args hlargs hmemargs { fs with args := fs.args ++ [c0 :: c1 :: crest], interspersed := true }
      · rw [if_neg hc0]
        push_neg at hc0
        subst hc0
        by_cases hc1 : c1 = '-'
        · subst hc1
          rw [if_pos rfl]
          by_cases hcr : crest = []
          · exfalso
            subst hcr
            exact hmem (List.mem_cons_self _ _)
          · rw [if_neg hcr]
            have hl1 := parseLongArg_frame fs fn ('-' :: '-' :: crest) args hfn
            rcases herr : (fs.parseLongArg fn ('-' :: '-' :: crest) args).err with _ | e
            · simp only [herr]
              have houtlen : (fs.parseLongArg fn ('-' :: '-' :: crest) args).outArgs.length ≤ n :=
                le_trans (parseLongArg_outArgs_length fs fn _ args) hlargs
              have houtmem : ('-' :: '-' :: ([] : GoStr)) ∉
                  (fs.parseLongArg fn ('-' :: '-' :: crest) args).outArgs := by
                rcases parseLongArg_outArgs fs fn ('-' :: '-' :: crest) args with h | h
                · rw [h]; exact hmemargs
                · rw [h]; intro hx; exact hmemargs (List.mem_of_mem_tail hx)
              have hrec := ih _ houtlen houtmem (fs.parseLongArg fn ('-' :: '-' :: crest) args).fs
              exact ⟨hrec.1.trans hl1.1, hrec.2.trans hl1.2⟩
            · simp only [herr]
              exact hl1
        · rw [if_neg hc1]
          have hs1 := parseShortArg_frame fs fn ('-' :: c1 :: crest) args hfn
          rcases herr : (fs.parseShortArg fn ('-' :: c1 :: crest) args).2.2 with _ | e
          · simp only [herr]
            have houtlen : (fs.parseShortArg fn ('-' :: c1 :: crest) args).2.1.length ≤ n :=
              le_trans (parseShortArg_outArgs_length fs fn _ args) hlargs
            have houtmem : ('-' :: '-' :: ([] : GoStr)) ∉
                (fs.parseShortArg fn ('-' :: c1 :: crest) args).2.1 := by
              rcases parseShortArg_outArgs fs fn ('-' :: c1 :: crest) args with h | h
              · rw [h]; exact hmemargs
              · rw [h]; intro hx; exact hmemargs (List.mem_of_mem_tail hx)
            have hrec := ih _ houtlen houtmem (fs.parseShortArg fn ('-' :: c1 :: crest) args).1
            exact ⟨hrec.1.trans hs1.1, hrec.2.trans hs1.2⟩
          · simp only [herr]
            exact hs1

/-- C7 (amended): a parse call of a NONEMPTY vector resets the positional
sequence (the result only depends on the registry with `args` cleared) and
preserves the registered flag names; but the terminator index is NOT reset —
for a vector without the exact token `--` the previous `argsLenAtDash` value
is carried over verbatim (not restored to the `-1` sentinel), and a parse of
an empty vector resets nothing at all (it only marks the registry parsed). -/
theorem c7_parse_reset (fs : FlagSet) (argv : List GoStr) :
    (fs.Parse []).1 = { fs with parsed := true } ∧
    (argv ≠ [] → fs.Parse argv = ({ fs with args := [] }).Parse argv) ∧
    (('-' :: '-' :: ([] : GoStr)) ∉ argv →
      (fs.Parse argv).1.argsLenAtDash = fs.argsLenAtDash ∧
      (fs.Parse argv).1.flags.map (fun g => g.name) = fs.flags.map (fun g => g.name)) := by
  have hfn : ∀ (st : FlagSet) (fl : ZFlag) (v : GoStr),
      (st.Set fl.name v).1.argsLenAtDash = st.argsLenAtDash ∧
      (st.Set fl.name v).1.flags.map (fun g => g.name) = st.flags.map (fun g => g.name) :=
    fun st fl v => ⟨(Set_frame st fl.name v).2.2.1, Set_flags_names st fl.name v⟩
  refine ⟨?_, ?_, ?_⟩
  · unfold FlagSet.Parse FlagSet.parseAll
    rw [if_pos rfl]
    rcases hV : ({ fs with parsed := true } : FlagSet).Validate with _ | e <;> simp [hV]
  · intro hne
    unfold FlagSet.Parse FlagSet.parseAll
    rw [if_neg hne, if_neg hne]
  · intro hmem
    rcases hargv : argv with _ | ⟨a, as⟩
    · unfold FlagSet.Parse FlagSet.parseAll
      rw [if_pos rfl]
      rcases hV : ({ fs with parsed := true } : FlagSet).Validate with _ | e <;> simp [hV]
    · unfold FlagSet.Parse FlagSet.parseAll
      rw [if_neg (by simp)]
      have hframe := parseArgs_frame (fun st fl v => st.Set fl.name v) hfn
        (a :: as).length (a :: as) le_rfl (hargv ▸ hmem)
        { fs with parsed := true, args := ([] : List GoStr) }
      rcases hE : (({ fs with parsed := true, args := ([] : List GoStr) } : FlagSet).parseArgs
          (fun st fl v => st.Set fl.name v) (a :: as)).2 with _ | e
      · simp only [hE]
        exact hframe
      · simp only [hE]
        cases hEH : (({ fs with parsed := true, args := ([] : List GoStr) } : FlagSet).parseArgs
            (fun st fl v => st.Set fl.name v) (a :: as)).1.errorHandling <;> exact hframe

/-- Fixture registry for the C7 counterexample. -/
def c7fs : FlagSet := NewFlagSet (str "app") .continueOnError

/-- Counterexample to C7 as claimed: after a parse whose vector contains
`--` at position 1, a second parse call of `[c]` (no `--` present) leaves
the terminator index at 1 — it is never reset to the `-1` sentinel, while
the positional sequence is rebuilt. -/
theorem c7_counterexample :
    ((c7fs.Parse [str "a", str "--", str "b"]).1.argsLenAtDash = 1) ∧
    (((c7fs.Parse [str "a", str "--", str "b"]).1.Parse [str "c"]).1.argsLenAtDash = 1) ∧
    ((1 : Int) ≠ -1) ∧
    (((c7fs.Parse [str "a", str "--", str "b"]).1.Parse [str "c"]).1.args = [str "c"]) := by
  refine ⟨?_, ?_, by decide, ?_⟩ <;>
    simp [c7fs, NewFlagSet, FlagSet.Parse, FlagSet.parseAll, FlagSet.parseArgs, FlagSet.Validate,
      FlagSet.GetAllFlags, sortFlagsByName, str]

/-- Fixture registry for the C7 witness: stale positionals and a stale
terminator index. -/
def c7wfs : FlagSet := { args := [str "old"], argsLenAtDash := 5 }

/-- Witness for the amended C7 theorem on a registry with a stale terminator
index 5: parsing `[x]` keeps index 5 and keeps the (empty) name sequence. -/
theorem c7_witness :
    ([str "x"] ≠ ([] : List GoStr) ∧ ('-' :: '-' :: ([] : GoStr)) ∉ [str "x"]) ∧
    ((c7wfs.Parse []).1 = { c7wfs with parsed := true } ∧
     (c7wfs.Parse [str "x"] = ({ c7wfs with args := [] }).Parse [str "x"]) ∧
     ((c7wfs.Parse [str "x"]).1.argsLenAtDash = c7wfs.argsLenAtDash ∧
      (c7wfs.Parse [str "x"]).1.flags.map (fun g => g.name) =
        c7wfs.flags.map (fun g => g.name))) := by
  have h := c7_parse_reset c7wfs [str "x"]
  exact ⟨⟨by decide, by decide⟩, h.1, h.2.1 (by decide), h.2.2 (by decide)⟩
